/-
  Verification of the trading decision and risk-control engine of the
  `trader` repository.

  The development shallowly embeds the TypeScript sources:
  * JavaScript numbers are modelled as rationals (ℚ); arithmetic the code
    performs (division by 100, absolute values, floors, min/max clamps) is
    exact on the inputs the claims are about.
  * Stateful services are modelled by explicit state records, with I/O
    results (market fetches, order refreshes, order submissions) passed in
    as explicit environment values.
  * Market ticker symbols are modelled as lists of characters so that the
    regex-based parsing in the source can be embedded as executable
    functions on character lists.
-/
import Mathlib

/-! ## src/lib/odds.ts -/

/-- Convert American odds to implied probability (odds.ts,
`impliedProbabilityFromAmerican`). -/
def impliedProbabilityFromAmerican (odds : ℚ) : ℚ :=
  if odds > 0 then 100 / (odds + 100) else (-odds) / ((-odds) + 100)

/-- Convert a Kalshi price to an implied probability (odds.ts,
`impliedProbabilityFromKalshiPrice`).  Prices greater than 1 are treated as
cents and divided by 100; the result is clamped to [0.001, 0.999]. -/
def impliedProbabilityFromKalshiPrice (price : ℚ) : ℚ :=
  let normalized := if price > 1 then price / 100 else price
  min 0.999 (max 0.001 normalized)

/-- Difference between two probabilities in percentage points (odds.ts,
`probabilityDifferencePct`). -/
def probabilityDifferencePct (prob1 prob2 : ℚ) : ℚ :=
  |prob1 - prob2| * 100

/-! ## src/lib/ticker.ts — game identity resolution

Market symbols are modelled as lists of characters (`Ticker`), so that the
regular expressions of the source can be embedded as executable functions. -/

/-- A market ticker symbol, as a list of characters. -/
abbrev Ticker := List Char

/-- Shorthand turning a string literal into a `Ticker`. -/
def tk (s : String) : Ticker := s.data

/-- Character class [A-Z] of the source regexes. -/
def isUpperAlpha (c : Char) : Bool := 'A' ≤ c && c ≤ 'Z'

/-- Character class [0-9] of the source regexes. -/
def isDigitChar (c : Char) : Bool := '0' ≤ c && c ≤ '9'

/-- Character class [A-Z0-9] of the source regexes. -/
def isUpperAlnum (c : Char) : Bool := isUpperAlpha c || isDigitChar c

/-- Split a character list at every dash, mirroring how the anchored source
regexes (whose segment classes exclude the dash) cut a ticker into its
dash-separated segments. -/
def splitOnDash : List Char → List (List Char)
  | [] => [[]]
  | c :: cs =>
    let rest := splitOnDash cs
    if c = '-' then [] :: rest
    else (c :: rest.headI) :: rest.tail

/-- Match of the primary game-id regex
`^[A-Z]+GAME-([A-Z0-9]+)-[A-Z0-9]+$` of
`TradingService.getGameKeyFromTicker`, returning the captured core segment.
A ticker matches exactly when it has three dash-separated segments, the
first being uppercase letters ending in GAME (with at least one letter
before), and the last two being nonempty uppercase alphanumerics. -/
def coreGameId (ticker : Ticker) : Option Ticker :=
  match splitOnDash ticker with
  | [seg0, seg1, seg2] =>
    if 5 ≤ seg0.length ∧ seg0.all isUpperAlpha = true ∧
        List.isSuffixOf (tk "GAME") seg0 = true ∧
        seg1 ≠ [] ∧ seg1.all isUpperAlnum = true ∧
        seg2 ≠ [] ∧ seg2.all isUpperAlnum = true then
      some seg1
    else none
  | _ => none

/-- Sports distinguished by `parseTickerToGame` (ticker.ts). -/
inductive Sport where
  | NBA | NFL | NHL | NCAAB | NCAAF
deriving DecidableEq, Repr

/-- Result of `parseTickerToGame` (ticker.ts). -/
structure ParsedGame where
  awayTeam : Ticker
  homeTeam : Ticker
  teamSide : Ticker
  sport : Sport
deriving DecidableEq, Repr

/-- NBA team abbreviation table of `parseTickerToGame`, in source order. -/
def nbaTeamAbbrevMap : List (Ticker × Ticker) :=
  [(tk "ATL", tk "ATL"), (tk "BOS", tk "BOS"), (tk "BKN", tk "BKN"),
   (tk "CHA", tk "CHA"), (tk "CHI", tk "CHI"), (tk "CLE", tk "CLE"),
   (tk "DAL", tk "DAL"), (tk "DEN", tk "DEN"), (tk "DET", tk "DET"),
   (tk "GS", tk "GS"), (tk "GSW", tk "GS"), (tk "HOU", tk "HOU"),
   (tk "IND", tk "IND"), (tk "LAC", tk "LAC"), (tk "LAL", tk "LAL"),
   (tk "MEM", tk "MEM"), (tk "MIA", tk "MIA"), (tk "MIL", tk "MIL"),
   (tk "MIN", tk "MIN"), (tk "NO", tk "NO"), (tk "NOP", tk "NO"),
   (tk "NY", tk "NY"), (tk "NYK", tk "NY"), (tk "OKC", tk "OKC"),
   (tk "ORL", tk "ORL"), (tk "PHI", tk "PHI"), (tk "PHX", tk "PHX"),
   (tk "POR", tk "POR"), (tk "SAC", tk "SAC"), (tk "SA", tk "SA"),
   (tk "SAS", tk "SA"), (tk "TOR", tk "TOR"), (tk "UTA", tk "UTA"),
   (tk "WAS", tk "WAS"), (tk "WSH", tk "WAS")]

/-- NFL team abbreviation table of `parseTickerToGame`, in source order. -/
def nflTeamAbbrevMap : List (Ticker × Ticker) :=
  [(tk "ARI", tk "ARI"), (tk "ATL", tk "ATL"), (tk "BAL", tk "BAL"),
   (tk "BUF", tk "BUF"), (tk "CAR", tk "CAR"), (tk "CHI", tk "CHI"),
   (tk "CIN", tk "CIN"), (tk "CLE", tk "CLE"), (tk "DAL", tk "DAL"),
   (tk "DEN", tk "DEN"), (tk "DET", tk "DET"), (tk "GB", tk "GB"),
   (tk "HOU", tk "HOU"), (tk "IND", tk "IND"), (tk "JAX", tk "JAX"),
   (tk "KC", tk "KC"), (tk "LV", tk "LV"), (tk "LAR", tk "LAR"),
   (tk "LAC", tk "LAC"), (tk "MIA", tk "MIA"), (tk "MIN", tk "MIN"),
   (tk "NE", tk "NE"), (tk "NO", tk "NO"), (tk "NYG", tk "NYG"),
   (tk "NYJ", tk "NYJ"), (tk "PHI", tk "PHI"), (tk "PIT", tk "PIT"),
   (tk "SF", tk "SF"), (tk "SEA", tk "SEA"), (tk "TB", tk "TB"),
   (tk "TEN", tk "TEN"), (tk "WAS", tk "WAS"), (tk "WSH", tk "WAS")]

/-- NHL team abbreviation table of `parseTickerToGame`, in source order. -/
def nhlTeamAbbrevMap : List (Ticker × Ticker) :=
  [(tk "ANA", tk "ANA"), (tk "ARI", tk "ARI"), (tk "BOS", tk "BOS"),
   (tk "BUF", tk "BUF"), (tk "CGY", tk "CGY"), (tk "CAR", tk "CAR"),
   (tk "CHI", tk "CHI"), (tk "COL", tk "COL"), (tk "CBJ", tk "CBJ"),
   (tk "DAL", tk "DAL"), (tk "DET", tk "DET"), (tk "EDM", tk "EDM"),
   (tk "FLA", tk "FLA"), (tk "LA", tk "LAK"), (tk "LAK", tk "LAK"),
   (tk "MIN", tk "MIN"), (tk "MTL", tk "MTL"), (tk "NSH", tk "NSH"),
   (tk "NJ", tk "NJD"), (tk "NJD", tk "NJD"), (tk "NYI", tk "NYI"),
   (tk "NYR", tk "NYR"), (tk "OTT", tk "OTT"), (tk "PHI", tk "PHI"),
   (tk "PIT", tk "PIT"), (tk "SJ", tk "SJS"), (tk "SJS", tk "SJS"),
   (tk "SEA", tk "SEA"), (tk "STL", tk "STL"), (tk "TB", tk "TBL"),
   (tk "TBL", tk "TBL"), (tk "TOR", tk "TOR"), (tk "VAN", tk "VAN"),
   (tk "VGK", tk "VGK"), (tk "WAS", tk "WSH"), (tk "WSH", tk "WSH"),
   (tk "WPG", tk "WPG")]

/-- Team table picked per sport (empty for college sports). -/
def teamMapFor : Sport → List (Ticker × Ticker)
  | .NFL => nflTeamAbbrevMap
  | .NHL => nhlTeamAbbrevMap
  | .NCAAB => []
  | .NCAAF => []
  | .NBA => nbaTeamAbbrevMap

/-- Partial-abbreviation table picked per sport (`partialToFull`). -/
def partialToFullFor : Sport → List (Ticker × Ticker)
  | .NFL => [(tk "LA", tk "LAR")]
  | .NHL => [(tk "LA", tk "LAK"), (tk "SJ", tk "SJS"),
             (tk "NJ", tk "NJD"), (tk "TB", tk "TBL")]
  | _ => []

/-- Exact key lookup in an abbreviation table (JS object property access). -/
def lookupTk (m : List (Ticker × Ticker)) (k : Ticker) : Option Ticker :=
  (m.find? (fun kv => kv.1 == k)).map (fun kv => kv.2)

/-- Fold of the source loop over `Object.entries(teamAbbrevMap)` that fills
still-unresolved halves by a short prefix match (key starts with the
abbreviation and is at most one character longer). -/
def scanAbbrevTable (entries : List (Ticker × Ticker)) (a1 a2 : Ticker)
    (f1 f2 : Option Ticker) : Option Ticker × Option Ticker :=
  entries.foldl
    (fun fs kv =>
      let g1 := match fs.1 with
        | some v => some v
        | none =>
          if a1.isPrefixOf kv.1 ∧ kv.1.length ≤ a1.length + 1 then
            some kv.2
          else none
      let g2 := match fs.2 with
        | some v => some v
        | none =>
          if a2.isPrefixOf kv.1 ∧ kv.1.length ≤ a2.length + 1 then
            some kv.2
          else none
      (g1, g2))
    (f1, f2)

/-- Fixed-length split attempts of `parseTickerToGame`, in source order. -/
def possibleSplits : List (ℕ × ℕ) :=
  [(3,3), (3,4), (4,3), (3,2), (2,3), (4,4), (2,4), (4,2)]

/-- Split-attempt loop of `parseTickerToGame`: try each length pair in turn;
on the first pair where both halves resolve through the team table (with
partial and prefix fallbacks), or — for college sports — where both raw
halves are nonempty, return the (away, home) pair as the source's
side-code disambiguation assigns them. -/
def trySplits (sport : Sport) (tmap ptf : List (Ticker × Ticker))
    (combined sideAbbrev fullSide : Ticker) :
    List (ℕ × ℕ) → Option (Ticker × Ticker)
  | [] => none
  | (l1, l2) :: rest =>
    if l1 + l2 ≤ combined.length then
      let a1 := combined.take l1
      let a2 := (combined.drop l1).take l2
      let f1 := match lookupTk tmap a1 with
        | some v => some v
        | none =>
          match lookupTk ptf a1 with
          | some p => lookupTk tmap p
          | none => none
      let f2 := match lookupTk tmap a2 with
        | some v => some v
        | none =>
          match lookupTk ptf a2 with
          | some p => lookupTk tmap p
          | none => none
      let fs := if f1.isNone || f2.isNone then
          scanAbbrevTable tmap a1 a2 f1 f2
        else (f1, f2)
      match fs with
      | (some g1, some g2) =>
        if g1 = fullSide ∨ a1 = sideAbbrev ∨ sideAbbrev.isPrefixOf g1 = true then
          some (g2, g1)
        else if g2 = fullSide ∨ a2 = sideAbbrev ∨ sideAbbrev.isPrefixOf g2 = true then
          some (g1, g2)
        else
          some (g1, g2)
      | _ =>
        if sport = .NCAAB ∨ sport = .NCAAF then
          if a1 ≠ [] ∧ a2 ≠ [] then
            if a1 = sideAbbrev ∨ sideAbbrev.isPrefixOf a1 = true ∨
                a1.isPrefixOf sideAbbrev = true then
              some (a2, a1)
            else if a2 = sideAbbrev ∨ sideAbbrev.isPrefixOf a2 = true ∨
                a2.isPrefixOf sideAbbrev = true then
              some (a1, a2)
            else
              some (a1, a2)
          else trySplits sport tmap ptf combined sideAbbrev fullSide rest
        else trySplits sport tmap ptf combined sideAbbrev fullSide rest
    else trySplits sport tmap ptf combined sideAbbrev fullSide rest

/-- Greedy match of `(\d+)([A-Z]+)` against a whole segment: a nonempty
digit block followed by a nonempty uppercase-letter block. -/
def splitDigitsLetters (s : Ticker) : Option (Ticker × Ticker) :=
  let ds := s.takeWhile isDigitChar
  let rest := s.dropWhile isDigitChar
  if ds ≠ [] ∧ rest ≠ [] ∧ rest.all isUpperAlpha = true then some (ds, rest)
  else none

/-- Embedding of `parseTickerToGame` (ticker.ts): match the sport-specific
regex
`^(KXNBA|KXNFL|KXNHL|KXNCAAB|KXNCAAMBG|KXNCAAF)GAME-(\d+)([A-Z]+)-([A-Z]+)$`,
then resolve the concatenated team block through the split-attempt loop. -/
def parseTickerToGame (ticker : Ticker) : Option ParsedGame :=
  match splitOnDash ticker with
  | [seg0, seg1, seg2] =>
    let sportOpt : Option Sport :=
      if seg0 = tk "KXNBAGAME" then some .NBA
      else if seg0 = tk "KXNFLGAME" then some .NFL
      else if seg0 = tk "KXNHLGAME" then some .NHL
      else if seg0 = tk "KXNCAABGAME" then some .NCAAB
      else if seg0 = tk "KXNCAAMBGGAME" then some .NCAAB
      else if seg0 = tk "KXNCAAFGAME" then some .NCAAF
      else none
    match sportOpt with
    | none => none
    | some sport =>
      match splitDigitsLetters seg1 with
      | none => none
      | some (_, combined) =>
        if seg2 ≠ [] ∧ seg2.all isUpperAlpha = true then
          let tmap := teamMapFor sport
          let ptf := partialToFullFor sport
          let fullSide := (lookupTk ptf seg2).getD seg2
          match trySplits sport tmap ptf combined seg2 fullSide possibleSplits with
          | some (away, home) => some ⟨away, home, fullSide, sport⟩
          | none =>
            if combined = tk "LAARI" ∧ sport = .NFL then
              some ⟨tk "LAR", tk "ARI", fullSide, sport⟩
            else none
        else none
  | _ => none

/-- Lexicographic comparison of tickers by character code, as the default
JavaScript array sort compares strings. -/
def lexLe : Ticker → Ticker → Bool
  | [], _ => true
  | _ :: _, [] => false
  | a :: as, b :: bs => if a < b then true else if a = b then lexLe as bs else false

/-- Embedding of `TradingService.getGameKeyFromTicker`: empty tickers give no
key; a ticker matching the primary regex yields its core (date + teams)
segment; otherwise the parsed away/home teams, sorted, joined by a dash. -/
def getGameKeyFromTicker (ticker : Ticker) : Option Ticker :=
  if ticker = [] then none
  else
    match coreGameId ticker with
    | some core => some core
    | none =>
      match parseTickerToGame ticker with
      | none => none
      | some g =>
        let first := if lexLe g.awayTeam g.homeTeam then g.awayTeam else g.homeTeam
        let second := if lexLe g.awayTeam g.homeTeam then g.homeTeam else g.awayTeam
        some (first ++ '-' :: second)

/-- Embedding of `TradingService.isSameGameTicker`: both tickers resolve to a
key and the keys agree.  (A JavaScript empty-string key would be falsy, but
every produced key is nonempty, so key presence models truthiness.) -/
def isSameGameTicker (tickerA tickerB : Ticker) : Bool :=
  match getGameKeyFromTicker tickerA, getGameKeyFromTicker tickerB with
  | some kA, some kB => kA == kB
  | _, _ => false

example : getGameKeyFromTicker (tk "KXNFLGAME-25NOV30ARITB-TB") =
    some (tk "25NOV30ARITB") := by decide

example : isSameGameTicker (tk "KXNFLGAME-25NOV30ARITB-TB")
    (tk "KXNFLGAME-25NOV30ARITB-ARI") = true := by decide

/-! ## src/types/markets.ts — data model -/

/-- Side of a binary game market. -/
inductive Side where
  | home | away
deriving DecidableEq, Repr

/-- Canonical event identity (markets.ts, `Game`). -/
structure Game where
  id : String
  homeTeam : String
  awayTeam : String
  scheduledTime : String
  status : Option String
deriving DecidableEq, Repr

/-- A Kalshi market quote (markets.ts, `Market`). -/
structure Market where
  gameId : String
  game : Game
  ticker : Ticker
  side : Side
  price : ℚ
  impliedProbability : ℚ
deriving DecidableEq, Repr

/-- Reference odds for one game (markets.ts, `SportsbookOdds`). -/
structure SportsbookOdds where
  game : Game
  homeOdds : Option ℚ
  awayOdds : Option ℚ
  homeImpliedProbability : Option ℚ
  awayImpliedProbability : Option ℚ
deriving DecidableEq, Repr

/-- A detected mispricing (markets.ts, `Mispricing`). -/
structure Mispricing where
  ticker : Ticker
  game : Game
  side : Side
  kalshiPrice : ℚ
  kalshiImpliedProbability : ℚ
  sportsbookOdds : ℚ
  sportsbookImpliedProbability : ℚ
  difference : ℚ
  differencePct : ℚ
  isKalshiOvervaluing : Bool
deriving DecidableEq, Repr

/-- Bot-level configuration consumed by the mispricing detector
(config/index.ts, `config.bot`). -/
structure BotConfig where
  mispricingThresholdPct : ℚ
  minEdgeAfterCostsPct : Option ℚ
deriving DecidableEq, Repr

/-! ## src/services/mispricingService.ts — `findMispricings`

The detector groups Kalshi markets by the `awayTeam-homeTeam` string,
attaches ESPN odds by exact or reversed key, and emits a mispricing per
matched side whose divergence meets the threshold.  The JavaScript `Map` is
modelled as an association list in insertion order.  The side-by-side
comparison table the source also returns carries no flagging decisions and
is not modelled. -/

/-- Per-game accumulator of the detector (`gameMap` values). -/
structure GameData where
  espn : Option SportsbookOdds
  kalshiHome : Option Market
  kalshiAway : Option Market
deriving DecidableEq, Repr

/-- Grouping key `awayTeam-homeTeam` used by `findMispricings`. -/
def mispricingGameKey (g : Game) : String := g.awayTeam ++ "-" ++ g.homeTeam

/-- Reversed grouping key `homeTeam-awayTeam` used when attaching odds. -/
def reverseGameKey (g : Game) : String := g.homeTeam ++ "-" ++ g.awayTeam

/-- Store a market in its side slot of a game accumulator. -/
def setKalshiSide (gd : GameData) (m : Market) : GameData :=
  match m.side with
  | .home => { gd with kalshiHome := some m }
  | .away => { gd with kalshiAway := some m }

/-- First grouping loop of `findMispricings`: insert one Kalshi market. -/
def insertKalshiMarket (acc : List (String × GameData)) (m : Market) :
    List (String × GameData) :=
  let key := mispricingGameKey m.game
  if acc.any (fun e => e.1 = key) then
    acc.map (fun e => if e.1 = key then (e.1, setKalshiSide e.2 m) else e)
  else
    acc ++ [(key, setKalshiSide ⟨none, none, none⟩ m)]

/-- Second loop of `findMispricings`: attach ESPN odds to the entry found
under the exact key, or failing that the reversed key. -/
def attachEspnOdds (acc : List (String × GameData)) (o : SportsbookOdds) :
    List (String × GameData) :=
  let key := mispricingGameKey o.game
  let rkey := reverseGameKey o.game
  if acc.any (fun e => e.1 = key) then
    acc.map (fun e => if e.1 = key then (e.1, { e.2 with espn := some o }) else e)
  else if acc.any (fun e => e.1 = rkey) then
    acc.map (fun e => if e.1 = rkey then (e.1, { e.2 with espn := some o }) else e)
  else acc

/-- Per-side emission of `findMispricings`: when a Kalshi market and an ESPN
implied probability are both present and their divergence in percentage
points reaches the threshold, emit the mispricing record.  (The source reads
the ESPN odds field with a non-null assertion; a missing value is modelled
as 0.) -/
def emitSideMispricing (cfg : BotConfig) (espnGame : Game) (mkt : Option Market)
    (espnProb : Option ℚ) (espnOddsVal : Option ℚ) (side : Side) :
    List Mispricing :=
  match mkt, espnProb with
  | some m, some p =>
    let diff := probabilityDifferencePct m.impliedProbability p
    if cfg.mispricingThresholdPct * 100 ≤ diff then
      [{ ticker := m.ticker
         game := espnGame
         side := side
         kalshiPrice := m.price
         kalshiImpliedProbability := m.impliedProbability
         sportsbookOdds := espnOddsVal.getD 0
         sportsbookImpliedProbability := p
         difference := |m.impliedProbability - p|
         differencePct := diff
         isKalshiOvervaluing := decide (p < m.impliedProbability) }]
    else []
  | _, _ => []

/-- Mispricings emitted for one grouped game entry: home side then away
side, skipped entirely when no ESPN odds were attached. -/
def mispricingsOfEntry (cfg : BotConfig) (e : String × GameData) :
    List Mispricing :=
  match e.2.espn with
  | none => []
  | some esp =>
    emitSideMispricing cfg esp.game e.2.kalshiHome esp.homeImpliedProbability
        esp.homeOdds .home ++
      emitSideMispricing cfg esp.game e.2.kalshiAway esp.awayImpliedProbability
        esp.awayOdds .away

/-- Embedding of `MispricingService.findMispricings`, restricted to the
flagged mispricing list. -/
def findMispricings (cfg : BotConfig) (kalshiMarkets : List Market)
    (espnOdds : List SportsbookOdds) : List Mispricing :=
  ((espnOdds.foldl attachEspnOdds (kalshiMarkets.foldl insertKalshiMarket
    [])).flatMap (mispricingsOfEntry cfg))

/-! ## TradingService.findArbitrageBundles -/

/-- Per-game accumulator of `findArbitrageBundles` (`byGame` values). -/
structure ArbEntry where
  game : Game
  home : Option Market
  away : Option Market
deriving DecidableEq, Repr

/-- An arbitrage bundle as returned by `findArbitrageBundles`. -/
structure Bundle where
  game : Game
  home : Market
  away : Market
  totalProb : ℚ
  edgePct : ℚ
deriving DecidableEq, Repr

/-- Store a market in its side slot of an arbitrage accumulator. -/
def setArbSide (e : ArbEntry) (m : Market) : ArbEntry :=
  match m.side with
  | .home => { e with home := some m }
  | .away => { e with away := some m }

/-- Grouping loop of `findArbitrageBundles`: insert one market under its
`gameId`, creating the entry (carrying that market's game) when absent. -/
def insertArbMarket (acc : List (String × ArbEntry)) (m : Market) :
    List (String × ArbEntry) :=
  let key := m.gameId
  if acc.any (fun e => e.1 = key) then
    acc.map (fun e => if e.1 = key then (e.1, setArbSide e.2 m) else e)
  else
    acc ++ [(key, setArbSide ⟨m.game, none, none⟩ m)]

/-- Bundle emission for one grouped entry: both sides present and combined
probability strictly below 1 minus the fee buffer. -/
def bundleOfEntry (feeBuffer : ℚ) (e : String × ArbEntry) : List Bundle :=
  match e.2.home, e.2.away with
  | some h, some a =>
    let totalProb := h.impliedProbability + a.impliedProbability
    if totalProb < 1 - feeBuffer then
      [{ game := e.2.game, home := h, away := a, totalProb := totalProb,
         edgePct := (1 - feeBuffer - totalProb) * 100 }]
    else []
  | _, _ => []

/-- Insert a bundle into a list kept in descending `edgePct` order. -/
def insertBundleDesc (b : Bundle) : List Bundle → List Bundle
  | [] => [b]
  | c :: cs =>
    if c.edgePct < b.edgePct then b :: c :: cs else c :: insertBundleDesc b cs

/-- Sort bundles by descending `edgePct` (the source's
`bundles.sort((a, b) => b.edgePct - a.edgePct)`). -/
def sortBundlesDesc : List Bundle → List Bundle
  | [] => []
  | b :: bs => insertBundleDesc b (sortBundlesDesc bs)

/-- Embedding of `TradingService.findArbitrageBundles` (the source defaults
`feeBuffer` to 0.01). -/
def findArbitrageBundles (markets : List Market) (feeBuffer : ℚ) :
    List Bundle :=
  sortBundlesDesc ((markets.foldl insertArbMarket []).flatMap
    (bundleOfEntry feeBuffer))

/-! ## src/services/tradingService.ts — order placement

`TradingService.placeTrade` is stateful (per-run traded-game set and
per-strategy capital ledger) and performs I/O (order refresh, market fetch,
order submission).  The state is an explicit `TradingState`; the I/O results
are an explicit `TradeEnv`.  Console logging, and the spread take-profit
companion order — which changes neither the returned result nor the tracked
state — are not modelled. -/

/-- The three trading strategies. -/
inductive StrategyName where
  | arbitrage | spread | mispricing
deriving DecidableEq, Repr

/-- Trading configuration (tradingService.ts, `TradingConfig`). -/
structure TradingConfig where
  liveTrades : Bool
  minBalanceToBet : ℚ
  maxBetSize : Option ℚ
  maxPerMarket : Option ℚ
  maxPerStrategyArbitrage : Option ℚ
  maxPerStrategySpread : Option ℚ
  maxPerStrategyMispricing : Option ℚ
  maxHoldTimeHours : Option ℚ
  maxOpenSpreadPositions : Option ℕ
deriving DecidableEq, Repr

/-- A portfolio position as consumed by the services.  The source reads
these fields off untyped API payloads through `|| 0` defaults, so the
numeric fields use 0 for an absent value and `Option` where the source
distinguishes null from zero. -/
structure PositionRec where
  ticker : Ticker
  position : ℤ
  market_result : String
  avg_price : Option ℚ
  total_cost : ℚ
  open_ts : Option ℤ
deriving DecidableEq, Repr

/-- An order as consumed by the services (price fields are log-only in the
source and not modelled).  `remaining_count` uses 0 for an absent value,
matching the source's `order.remaining_count && order.remaining_count > 0`
and `(o.remaining_count || 0)` reads. -/
structure OrderRec where
  ticker : Ticker
  side : String
  action : String
  status : String
  remaining_count : ℤ
deriving DecidableEq, Repr

/-- Market data returned by `getMarkets` for one ticker. -/
structure MarketData where
  yes_ask : Option ℚ
  yes_bid : Option ℚ
  no_ask : Option ℚ
  no_bid : Option ℚ
  last_price : Option ℚ
deriving DecidableEq, Repr

/-- Result record of `placeTrade`. -/
structure TradeResult where
  success : Bool
  orderId : Option String
  error : Option String
deriving DecidableEq, Repr

/-- Per-process mutable state of `TradingService`: the traded-game set and
the per-strategy capital used this run (JavaScript `Set` membership is
modelled by list membership). -/
structure TradingState where
  tradedGameKeys : List Ticker
  arbitrageUsed : ℚ
  spreadUsed : ℚ
  mispricingUsed : ℚ
deriving DecidableEq, Repr

/-- Fresh state of a new process run: no games traded, no capital used. -/
def initialTradingState : TradingState := ⟨[], 0, 0, 0⟩

/-- Capital used so far by a strategy (`strategyCapitalUsed`). -/
def strategyCapitalUsed (st : TradingState) : StrategyName → ℚ
  | .arbitrage => st.arbitrageUsed
  | .spread => st.spreadUsed
  | .mispricing => st.mispricingUsed

/-- Update the capital-used entry of one strategy. -/
def setStrategyCapitalUsed (st : TradingState) (s : StrategyName) (v : ℚ) :
    TradingState :=
  match s with
  | .arbitrage => { st with arbitrageUsed := v }
  | .spread => { st with spreadUsed := v }
  | .mispricing => { st with mispricingUsed := v }

/-- Per-strategy capital cap (`TradingService.getStrategyLimit`). -/
def getStrategyLimit (tc : TradingConfig) : StrategyName → Option ℚ
  | .arbitrage => tc.maxPerStrategyArbitrage
  | .spread => tc.maxPerStrategySpread
  | .mispricing => tc.maxPerStrategyMispricing

/-- Remaining per-strategy capital
(`TradingService.getRemainingStrategyCapital`); `none` models the source's
`Infinity` for a strategy without a configured cap. -/
def getRemainingStrategyCapital (tc : TradingConfig) (st : TradingState)
    (s : StrategyName) : Option ℚ :=
  match getStrategyLimit tc s with
  | none => none
  | some limit => some (max 0 (limit - strategyCapitalUsed st s))

/-- Record capital spent by a strategy
(`TradingService.registerStrategySpend`); non-positive amounts are ignored
(the source also ignores non-finite amounts, which have no rational
counterpart). -/
def registerStrategySpend (st : TradingState) (s : StrategyName)
    (amountDollars : ℚ) : TradingState :=
  if amountDollars ≤ 0 then st
  else setStrategyCapitalUsed st s (strategyCapitalUsed st s + amountDollars)

/-- Embedding of `TradingService.findExistingPositionForMarket`: first
position with a nonempty ticker and nonzero count on this exact market or
on a ticker of the same game. -/
def findExistingPositionForMarket (marketTicker : Ticker)
    (activePositions : List PositionRec) : Option PositionRec :=
  activePositions.find? (fun pos =>
    !pos.ticker.isEmpty && pos.position != 0 &&
      (pos.ticker == marketTicker || isSameGameTicker pos.ticker marketTicker))

/-- Embedding of `TradingService.hasExistingPosition`. -/
def hasExistingPosition (marketTicker : Ticker)
    (activePositions : List PositionRec) : Bool :=
  (findExistingPositionForMarket marketTicker activePositions).isSome

/-- One order blocks a market when it is on the same ticker or the same
game, its status is resting, pending or executed, and it has remaining
contracts (`TradingService.hasPendingOrder`, inner filter). -/
def orderBlocks (marketTicker : Ticker) (o : OrderRec) : Bool :=
  (o.ticker == marketTicker || isSameGameTicker o.ticker marketTicker) &&
    (o.status == "resting" || o.status == "pending" ||
      o.status == "executed") &&
    decide (0 < o.remaining_count)

/-- Embedding of `TradingService.hasPendingOrder`. -/
def hasPendingOrder (marketTicker : Ticker) (activeOrders : List OrderRec) :
    Bool :=
  activeOrders.any (orderBlocks marketTicker)

/-- Price-discovery chain of `placeTrade` (source lines picking `buyPrice`):
prefer the fetched market's ask for the chosen side, then bid, then last
price (complemented for NO), finally the cached mispricing price. -/
def resolveBuyPrice (side : String) (fetched : Option MarketData)
    (m : Mispricing) : ℚ :=
  match fetched with
  | some market =>
    if side == "yes" then
      match market.yes_ask with
      | some v => v
      | none =>
        match market.yes_bid with
        | some v => v
        | none =>
          match market.last_price with
          | some v => v
          | none => m.kalshiPrice
    else
      match market.no_ask with
      | some v => v
      | none =>
        match market.no_bid with
        | some v => v
        | none =>
          match market.yes_ask with
          | some v => 100 - v
          | none =>
            match market.yes_bid with
            | some v => 100 - v
            | none =>
              match market.last_price with
              | some v => 100 - v
              | none => 100 - m.kalshiPrice
  | none => if side == "yes" then m.kalshiPrice else 100 - m.kalshiPrice

/-- Stake-sizing chain of `placeTrade`: caller-desired stake, else
configured max bet, else a dollar per percentage point of divergence;
floored at $1, then capped by the per-market limit and by the remaining
per-strategy capital. -/
def cappedStake (tc : TradingConfig) (st : TradingState)
    (strategy : StrategyName) (m : Mispricing)
    (desiredStakeDollars : Option ℚ) : ℚ :=
  let base := desiredStakeDollars.getD (tc.maxBetSize.getD m.differencePct)
  let floored := max base 1
  let marketCapped := match tc.maxPerMarket with
    | some cap => min floored cap
    | none => floored
  match getRemainingStrategyCapital tc st strategy with
  | some remaining => min marketCapped remaining
  | none => marketCapped

/-- Rounding of a dollar amount to whole cents, modelling the source's
`parseFloat(x.toFixed(2))` on the nonnegative amounts that arise. -/
def roundToCents (x : ℚ) : ℚ := (round (x * 100) : ℤ) / 100

/-- Outcome of the live order submission (`portfolioApi.createOrder`). -/
inductive SubmitOutcome where
  | ok (orderId : String)
  | noOrder
  | errmsg (msg : String)
deriving DecidableEq, Repr

/-- I/O results consumed by one `placeTrade` call: the order refresh
(`none` models no client or a failed refresh), the market fetch (`none`
models not-found or a fetch error — both fall back identically), and the
live submission outcome. -/
structure TradeEnv where
  refreshedOrders : Option (List OrderRec)
  fetchedMarket : Option MarketData
  submit : SubmitOutcome
deriving DecidableEq, Repr

/-- Embedding of `TradingService.placeTrade`: the guard chain (game already
traded this run, existing position, pending order), price discovery, stake
sizing with the $1 minimum, contract sizing, then the dry-run return or the
live submission with game-key marking and spend registration. -/
def placeTrade (tc : TradingConfig) (env : TradeEnv) (st : TradingState)
    (strategy : StrategyName) (m : Mispricing) (marketTicker : Ticker)
    (activePositions : List PositionRec) (activeOrders : List OrderRec)
    (desiredStakeDollars : Option ℚ) : TradeResult × TradingState :=
  let gameKey := getGameKeyFromTicker marketTicker
  let alreadyTraded : Bool := match gameKey with
    | some k => st.tradedGameKeys.contains k
    | none => false
  if alreadyTraded then
    (⟨false, none, some "Game already traded in this run"⟩, st)
  else
    let currentActiveOrders := env.refreshedOrders.getD activeOrders
    match findExistingPositionForMarket marketTicker activePositions with
    | some _ => (⟨false, none, some "Existing position found"⟩, st)
    | none =>
      if hasPendingOrder marketTicker currentActiveOrders then
        (⟨false, none, some "Pending order found"⟩, st)
      else
        let side := if m.isKalshiOvervaluing then "no" else "yes"
        let buyPrice := resolveBuyPrice side env.fetchedMarket m
        let betSizeDollars := cappedStake tc st strategy m desiredStakeDollars
        if betSizeDollars < 1 then
          (⟨false, none, some "Strategy capital exhausted"⟩, st)
        else
          let costPerContract := buyPrice / 100
          let contractCount : ℤ := ⌊betSizeDollars / costPerContract⌋
          let finalContractCount : ℤ := max contractCount 1
          let actualBetSizeDollars :=
            roundToCents ((finalContractCount : ℚ) * costPerContract)
          if !tc.liveTrades then
            (⟨true, some "dry-run-order-id", none⟩,
             registerStrategySpend st strategy actualBetSizeDollars)
          else
            match env.submit with
            | .ok orderId =>
              let marked := match gameKey with
                | some k => { st with tradedGameKeys := k :: st.tradedGameKeys }
                | none => st
              (⟨true, some orderId, none⟩,
               registerStrategySpend marked strategy actualBetSizeDollars)
            | .noOrder =>
              (⟨false, none, some "No order returned from API"⟩, st)
            | .errmsg msg =>
              (⟨false, none, some msg⟩, st)

/-- One `placeTrade` call with its inputs and I/O results, for reasoning
about sequences of calls within a process run. -/
structure TradeCall where
  env : TradeEnv
  strategy : StrategyName
  m : Mispricing
  marketTicker : Ticker
  activePositions : List PositionRec
  activeOrders : List OrderRec
  desiredStakeDollars : Option ℚ

/-- Run one call against a state, keeping the new state. -/
def stepTrade (tc : TradingConfig) (st : TradingState) (c : TradeCall) :
    TradingState :=
  (placeTrade tc c.env st c.strategy c.m c.marketTicker c.activePositions
    c.activeOrders c.desiredStakeDollars).2

/-- State after a sequence of `placeTrade` calls in one process run. -/
def runTrades (tc : TradingConfig) (calls : List TradeCall) : TradingState :=
  calls.foldl (stepTrade tc) initialTradingState

/-! ## src/services/riskService.ts -/

/-- Persisted per-day counters (riskService.ts, `DailyStats`). -/
structure DailyStats where
  date : String
  tradesCount : ℕ
  notionalSpent : ℚ
  realizedPnl : ℚ
  startBalance : ℚ
  endBalance : ℚ
deriving DecidableEq, Repr

/-- Embedding of `loadDailyStats`: the persisted record (if any — `none`
also models a missing or unreadable stats file) is kept only when its date
equals the current UTC date. -/
def loadDailyStats (persisted : Option DailyStats) (today : String) :
    Option DailyStats :=
  match persisted with
  | none => none
  | some stats => if stats.date = today then some stats else none

/-- Zeroed stats for a new day, as built by the `RiskService` constructor. -/
def freshDailyStats (today : String) : DailyStats :=
  { date := today, tradesCount := 0, notionalSpent := 0, realizedPnl := 0,
    startBalance := 0, endBalance := 0 }

/-- Embedding of the `RiskService` constructor: load the persisted stats,
falling back to zeroed stats dated today. -/
def initRiskService (persisted : Option DailyStats) (today : String) :
    DailyStats :=
  (loadDailyStats persisted today).getD (freshDailyStats today)

/-- Hard risk limits (config/index.ts, `config.risk` subset consumed by
`canPlaceTrade`). -/
structure RiskConfig where
  maxPositionsTotal : Option ℕ
  maxOrderNotional : Option ℚ
  maxDailyTrades : Option ℕ
  maxDailyNotional : Option ℚ
  maxDailyLoss : Option ℚ
deriving DecidableEq, Repr

/-- Denial reasons of `canPlaceTrade`, one per limit, in source order (the
formatted reason strings of the source are abstracted to tags). -/
inductive RiskDenyReason where
  | maxPositionsLimit
  | orderNotionalLimit
  | dailyTradesLimit
  | dailyNotionalLimit
  | dailyLossLimit
deriving DecidableEq, Repr

/-- Configured count limit reached: `value ≥ limit`. -/
def limitHitNat (limit : Option ℕ) (value : ℕ) : Bool :=
  match limit with
  | none => false
  | some m => decide (m ≤ value)

/-- Configured amount limit exceeded: `value > limit`. -/
def limitExceededQ (limit : Option ℚ) (value : ℚ) : Bool :=
  match limit with
  | none => false
  | some m => decide (m < value)

/-- Configured loss limit reached: realized PnL at or below `-limit`. -/
def lossLimitHit (limit : Option ℚ) (pnl : ℚ) : Bool :=
  match limit with
  | none => false
  | some m => decide (pnl ≤ -m)

/-- Embedding of `RiskService.canPlaceTrade`: the five hard limits checked
in source order, returning the first denial (`none` = allowed).  The
`currentBalance` and `activeOrders` parameters are accepted and ignored,
as in the source. -/
def canPlaceTrade (cfg : RiskConfig) (stats : DailyStats)
    (orderNotional currentBalance : ℚ) (totalPositions : ℕ)
    (activeOrders : List OrderRec) : Option RiskDenyReason :=
  if limitHitNat cfg.maxPositionsTotal totalPositions then
    some .maxPositionsLimit
  else if limitExceededQ cfg.maxOrderNotional orderNotional then
    some .orderNotionalLimit
  else if limitHitNat cfg.maxDailyTrades stats.tradesCount then
    some .dailyTradesLimit
  else if limitExceededQ cfg.maxDailyNotional
      (stats.notionalSpent + orderNotional) then
    some .dailyNotionalLimit
  else if lossLimitHit cfg.maxDailyLoss stats.realizedPnl then
    some .dailyLossLimit
  else none

/-! ## src/services/positionManager.ts -/

/-- Exit-rule configuration (positionManager.ts, `ExitRule`). -/
structure ExitRule where
  takeProfitCentsPerContract : Option ℚ
  takeProfitPctOfCost : Option ℚ
  maxHoldMinutes : Option ℚ
  stopLossPct : Option ℚ
deriving DecidableEq, Repr

/-- Why a position exit was decided (the formatted reason strings of the
source, abstracted to tags carrying their numeric payloads). -/
inductive ExitReason where
  | tpCents (profitCents : ℚ)
  | tpPct (pct : ℚ)
  | stopLoss (pct : ℚ)
  | maxHold (ageMinutes : ℚ)
deriving DecidableEq, Repr

/-- Result of `evaluatePositionExit`. -/
structure ExitDecision where
  shouldExit : Bool
  exitPrice : Option ℚ
  reason : Option ExitReason
deriving DecidableEq, Repr

/-- The no-exit result. -/
def noExit : ExitDecision := ⟨false, none, none⟩

/-- Contracts already covered by resting or pending sell orders on this
ticker (`evaluatePositionExit`, `alreadyOffered`). -/
def restingSellRemaining (ticker : Ticker) (activeOrders : List OrderRec) :
    ℤ :=
  ((activeOrders.filter (fun o =>
      o.ticker == ticker && o.action == "sell" &&
        (o.status == "resting" || o.status == "pending") &&
        decide (0 < o.remaining_count))).map
    (fun o => o.remaining_count)).sum

/-- The fixed-priority exit-rule chain of
`PositionManager.evaluatePositionExit` (source steps 1–4), evaluated after
prices and PnL are resolved: take-profit in absolute cents per contract,
then take-profit as percent of cost, then stop-loss percent, then max hold
time — returning on the first rule that fires, each exit priced at the
best bid `bb`. -/
def exitRulesDecision (rules : ExitRule) (cp bb : ℚ) (entryPriceCents : ℤ)
    (unrealizedPnlPct : ℚ) (open_ts : Option ℤ) (nowSec : ℤ) :
    ExitDecision :=
  let rule1 : Option ExitDecision :=
    match rules.takeProfitCentsPerContract with
    | some tp =>
      let profitCents := cp - (entryPriceCents : ℚ)
      if tp ≤ profitCents then
        some ⟨true, some bb, some (.tpCents profitCents)⟩
      else none
    | none => none
  match rule1 with
  | some d => d
  | none =>
    let rule2 : Option ExitDecision :=
      match rules.takeProfitPctOfCost with
      | some tp =>
        if tp ≤ unrealizedPnlPct then
          some ⟨true, some bb, some (.tpPct unrealizedPnlPct)⟩
        else none
      | none => none
    match rule2 with
    | some d => d
    | none =>
      let rule3 : Option ExitDecision :=
        match rules.stopLossPct with
        | some sl =>
          if unrealizedPnlPct ≤ -sl then
            some ⟨true, some bb, some (.stopLoss unrealizedPnlPct)⟩
          else none
        | none => none
      match rule3 with
      | some d => d
      | none =>
        match rules.maxHoldMinutes, open_ts with
        | some mh, some openedTs =>
          let ageMinutes : ℚ := ((nowSec - openedTs : ℤ) : ℚ) / 60
          if mh ≤ ageMinutes then
            ⟨true, some bb, some (.maxHold ageMinutes)⟩
          else noExit
        | _, _ => noExit

/-- Embedding of `PositionManager.evaluatePositionExit`.  The market fetch
is the explicit `fetched` argument (`none` models no market found or a
fetch error) and the wall clock is the explicit `nowSec`.  A position whose
resolved open timestamp is zero (falsy in the source) is modelled with
`open_ts = none`.  The source's `bestAsk` is computed but never consulted
and is not modelled. -/
def evaluatePositionExit (rules : ExitRule) (position : PositionRec)
    (activeOrders : List OrderRec) (fetched : Option MarketData)
    (nowSec : ℤ) : ExitDecision :=
  let positionCount := position.position
  if positionCount = 0 then noExit
  else
    let alreadyOffered := restingSellRemaining position.ticker activeOrders
    let qtyToExit := positionCount - alreadyOffered
    if qtyToExit ≤ 0 then noExit
    else
      match fetched with
      | none => noExit
      | some market =>
        let isYesPosition := position.market_result == "yes"
        let bestBid := if isYesPosition then market.yes_bid
          else market.yes_ask.map (fun v => 100 - v)
        let yesCurrent := match market.last_price with
          | some v => some v
          | none => market.yes_bid
        let currentPrice := if isYesPosition then yesCurrent
          else yesCurrent.map (fun v => 100 - v)
        match currentPrice, bestBid with
        | some cp, some bb =>
          let entryPrice : Option ℚ := match position.avg_price with
            | some v => some v
            | none =>
              if 0 < position.total_cost ∧ 0 < positionCount then
                some (position.total_cost / (positionCount : ℚ) / 100)
              else none
          match entryPrice with
          | none => noExit
          | some ep =>
            let entryPriceCents : ℤ := round (ep * 100)
            let totalCost : ℚ := (entryPriceCents : ℚ) * (positionCount : ℚ)
            let unrealizedPnl := cp * (positionCount : ℚ) - totalCost
            let unrealizedPnlPct := unrealizedPnl / totalCost * 100
            exitRulesDecision rules cp bb entryPriceCents unrealizedPnlPct
              position.open_ts nowSec
        | _, _ => noExit

/-- The limit sell order built by `PositionManager.placeExitOrder` (`none`
when the position count is not positive; in dry-run mode the source logs
instead of submitting, but builds the same order). -/
structure ExitOrderSpec where
  ticker : Ticker
  side : String
  action : String
  count : ℤ
  price : ℤ
deriving DecidableEq, Repr

/-- Embedding of `PositionManager.placeExitOrder`: a limit sell of the full
position count at the floored exit price, lowered one tick when
`improveExitByOneTick` is configured, clamped to [1, 99]. -/
def placeExitOrder (improveExitByOneTick : Bool) (position : PositionRec)
    (exitPrice : ℚ) : Option ExitOrderSpec :=
  let positionCount := position.position
  if positionCount ≤ 0 then none
  else
    let side := if position.market_result == "yes" then "yes" else "no"
    let floored : ℤ := ⌊exitPrice⌋
    let improved : ℤ := if improveExitByOneTick then max 1 (floored - 1)
      else floored
    let finalPrice : ℤ := max 1 (min 99 improved)
    some ⟨position.ticker, side, "sell", positionCount, finalPrice⟩

/-! ## Supporting lemmas -/

/-- Splitting never produces the empty segment list. -/
theorem splitOnDash_ne_nil (l : List Char) : splitOnDash l ≠ [] := by
  cases l with
  | nil => simp [splitOnDash]
  | cons c cs =>
    by_cases h : c = '-' <;> simp [splitOnDash, h]

/-- A dash-free list splits into itself. -/
theorem splitOnDash_of_noDash (l : List Char) (h : '-' ∉ l) :
    splitOnDash l = [l] := by
  induction l with
  | nil => simp [splitOnDash]
  | cons c cs ih =>
    have hc : c ≠ '-' := fun hc => h (hc ▸ List.mem_cons_self c cs)
    have hcs : '-' ∉ cs := fun hm => h (List.mem_cons_of_mem c hm)
    simp [splitOnDash, hc, ih hcs, List.headI]

/-- A dash-free head segment splits off before the first dash. -/
theorem splitOnDash_append (a rest : List Char) (h : '-' ∉ a) :
    splitOnDash (a ++ ('-' :: rest)) = a :: splitOnDash rest := by
  induction a with
  | nil => simp [splitOnDash]
  | cons c cs ih =>
    have hc : c ≠ '-' := fun hc => h (hc ▸ List.mem_cons_self c cs)
    have hcs : '-' ∉ cs := fun hm => h (List.mem_cons_of_mem c hm)
    rw [List.cons_append]
    simp [splitOnDash, hc, ih hcs]

/-- Uppercase alphanumeric characters are never the dash. -/
theorem noDash_of_all_isUpperAlnum (l : List Char)
    (h : l.all isUpperAlnum = true) : '-' ∉ l := by
  intro hm
  have := List.all_eq_true.mp h '-' hm
  simp [isUpperAlnum, isUpperAlpha, isDigitChar] at this

/-- Uppercase alphabetic characters are never the dash. -/
theorem noDash_of_all_isUpperAlpha (l : List Char)
    (h : l.all isUpperAlpha = true) : '-' ∉ l := by
  intro hm
  have := List.all_eq_true.mp h '-' hm
  simp [isUpperAlpha] at this

/-- Assemble a three-segment ticker string, as the supported grammar's
symbols are shaped: sport block, dash, core (date + teams) block, dash,
side code. -/
def mkTicker (seg0 seg1 seg2 : Ticker) : Ticker :=
  seg0 ++ ('-' :: (seg1 ++ ('-' :: seg2)))

/-- A ticker built from a grammar-conforming sport segment, core segment and
side segment is matched by the primary regex, with the core captured. -/
theorem coreGameId_build (sport core side : Ticker)
    (hs_alpha : sport.all isUpperAlpha = true)
    (hs_suffix : List.isSuffixOf (tk "GAME") sport = true)
    (hs_len : 5 ≤ sport.length)
    (hc_ne : core ≠ []) (hc_alnum : core.all isUpperAlnum = true)
    (hd_ne : side ≠ []) (hd_alnum : side.all isUpperAlnum = true) :
    coreGameId (mkTicker sport core side) = some core := by
  have hsp := noDash_of_all_isUpperAlpha sport hs_alpha
  have hco := noDash_of_all_isUpperAlnum core hc_alnum
  have hsi := noDash_of_all_isUpperAlnum side hd_alnum
  have hsplit : splitOnDash (mkTicker sport core side) =
      [sport, core, side] := by
    unfold mkTicker
    rw [splitOnDash_append sport _ hsp, splitOnDash_append core _ hco,
      splitOnDash_of_noDash side hsi]
  simp only [coreGameId, hsplit]
  rw [if_pos]
  exact ⟨hs_len, hs_alpha, hs_suffix, hc_ne, hc_alnum, hd_ne, hd_alnum⟩

/-! ## Claim theorems -/

/-- C5, counterexample: `impliedProbabilityFromKalshiPrice` is not monotone
over all numeric inputs.  At the cents/decimal boundary, a price of 1
(decimal, clamped to 0.999) exceeds the image of a price of 2 (cents,
normalized to 0.02): 1 ≤ 2 but f(1) = 0.999 > 0.02 = f(2). -/
theorem C5_counterexample :
    (1 : ℚ) ≤ 2 ∧
      ¬ impliedProbabilityFromKalshiPrice 1 ≤ impliedProbabilityFromKalshiPrice 2 := by
  constructor
  · norm_num
  · norm_num [impliedProbabilityFromKalshiPrice]

/-- C5 (amended): `impliedProbabilityFromKalshiPrice` always lies in
[0.001, 0.999], and is monotone non-decreasing on each branch of the
cents/decimal normalization — whenever both prices are at most 1, or both
are greater than 1 (monotonicity fails only across the branch boundary). -/
theorem C5_theorem :
    (∀ p : ℚ, 0.001 ≤ impliedProbabilityFromKalshiPrice p ∧
      impliedProbabilityFromKalshiPrice p ≤ 0.999) ∧
    (∀ p1 p2 : ℚ, p1 ≤ p2 → (p2 ≤ 1 ∨ 1 < p1) →
      impliedProbabilityFromKalshiPrice p1 ≤ impliedProbabilityFromKalshiPrice p2) := by
  have hdef : ∀ p : ℚ, impliedProbabilityFromKalshiPrice p =
      min 0.999 (max 0.001 (if p > 1 then p / 100 else p)) := fun _ => rfl
  constructor
  · intro p
    rw [hdef]
    constructor
    · exact le_min (by norm_num) (le_max_left _ _)
    · exact min_le_left _ _
  · intro p1 p2 h12 hbr
    rw [hdef, hdef]
    have hmono : (if p1 > 1 then p1 / 100 else p1) ≤
        (if p2 > 1 then p2 / 100 else p2) := by
      rcases hbr with h2 | h1
      · rw [if_neg (not_lt.mpr (le_trans h12 h2)), if_neg (not_lt.mpr h2)]
        exact h12
      · rw [if_pos h1, if_pos (lt_of_lt_of_le h1 h12)]
        linarith
    exact min_le_min le_rfl (max_le_max le_rfl hmono)

/-- C5 witness: the amended monotonicity applied to 0.25 ≤ 0.75 (both on
the decimal branch). -/
theorem C5_witness :
    impliedProbabilityFromKalshiPrice 0.25 ≤ impliedProbabilityFromKalshiPrice 0.75 :=
  C5_theorem.2 0.25 0.75 (by norm_num) (Or.inl (by norm_num))

/-- Grammar-conforming tickers resolve through the primary regex branch of
`getGameKeyFromTicker`, yielding the core segment as the key. -/
theorem getGameKeyFromTicker_build (sport core side : Ticker)
    (hs_alpha : sport.all isUpperAlpha = true)
    (hs_suffix : List.isSuffixOf (tk "GAME") sport = true)
    (hs_len : 5 ≤ sport.length)
    (hc_ne : core ≠ []) (hc_alnum : core.all isUpperAlnum = true)
    (hd_ne : side ≠ []) (hd_alnum : side.all isUpperAlnum = true) :
    getGameKeyFromTicker (mkTicker sport core side) = some core := by
  have hne : mkTicker sport core side ≠ [] := by
    unfold mkTicker
    simp
  unfold getGameKeyFromTicker
  rw [if_neg hne, coreGameId_build sport core side hs_alpha hs_suffix hs_len
    hc_ne hc_alnum hd_ne hd_alnum]

/-- C9: for every symbol accepted by the supported ticker grammar (an
uppercase sport block ending in GAME, a dash, a nonempty alphanumeric core
block shared by both sides of the event, a dash, and a nonempty
alphanumeric side code), the game key is the core block — so the key
computed from the home-side symbol equals the key computed from the
away-side symbol of the same event. -/
theorem C9_theorem :
    ∀ (sport core side1 side2 : Ticker),
      sport.all isUpperAlpha = true →
      List.isSuffixOf (tk "GAME") sport = true →
      5 ≤ sport.length →
      core ≠ [] → core.all isUpperAlnum = true →
      side1 ≠ [] → side1.all isUpperAlnum = true →
      side2 ≠ [] → side2.all isUpperAlnum = true →
      getGameKeyFromTicker (mkTicker sport core side1) = some core ∧
      getGameKeyFromTicker (mkTicker sport core side1) =
        getGameKeyFromTicker (mkTicker sport core side2) := by
  intro sport core side1 side2 h1 h2 h3 h4 h5 h6 h7 h8 h9
  have k1 := getGameKeyFromTicker_build sport core side1 h1 h2 h3 h4 h5 h6 h7
  have k2 := getGameKeyFromTicker_build sport core side2 h1 h2 h3 h4 h5 h8 h9
  exact ⟨k1, k1.trans k2.symm⟩

/-- C9 witness: both sides of the NFL game 25NOV30ARITB share the key. -/
theorem C9_witness :
    getGameKeyFromTicker (mkTicker (tk "KXNFLGAME") (tk "25NOV30ARITB")
        (tk "ARI")) = some (tk "25NOV30ARITB") ∧
      getGameKeyFromTicker (mkTicker (tk "KXNFLGAME") (tk "25NOV30ARITB")
        (tk "ARI")) =
        getGameKeyFromTicker (mkTicker (tk "KXNFLGAME") (tk "25NOV30ARITB")
          (tk "TB")) :=
  C9_theorem (tk "KXNFLGAME") (tk "25NOV30ARITB") (tk "ARI") (tk "TB")
    (by decide) (by decide) (by decide) (by decide) (by decide) (by decide)
    (by decide) (by decide) (by decide)

/-- C6: constructing RiskService on a day different from the persisted
record's date yields zeroed stats dated today, regardless of the persisted
values; on the same day the persisted record is kept unchanged. -/
theorem C6_theorem :
    ∀ (persisted : DailyStats) (today : String),
      (persisted.date ≠ today →
        initRiskService (some persisted) today = freshDailyStats today ∧
        (initRiskService (some persisted) today).tradesCount = 0 ∧
        (initRiskService (some persisted) today).notionalSpent = 0 ∧
        (initRiskService (some persisted) today).realizedPnl = 0 ∧
        (initRiskService (some persisted) today).date = today) ∧
      (persisted.date = today →
        initRiskService (some persisted) today = persisted) := by
  intro p today
  constructor
  · intro hne
    have hfresh : initRiskService (some p) today = freshDailyStats today := by
      simp [initRiskService, loadDailyStats, hne]
    exact ⟨hfresh, by simp [hfresh, freshDailyStats],
      by simp [hfresh, freshDailyStats], by simp [hfresh, freshDailyStats],
      by simp [hfresh, freshDailyStats]⟩
  · intro heq
    simp [initRiskService, loadDailyStats, heq]

/-- Stale persisted record of the C6 witness: dated 2025-10-11 with
nonzero counters. -/
def staleStatsC6 : DailyStats := ⟨"2025-10-11", 7, 250, -12, 0, 0⟩

/-- Same-day persisted record of the C6 witness: dated 2025-10-12. -/
def sameDayStatsC6 : DailyStats := ⟨"2025-10-12", 7, 250, -12, 0, 0⟩

/-- C6 witness: a stale record from 2025-10-11 with nonzero counters resets
on 2025-10-12, while the same-day record is kept. -/
theorem C6_witness :
    (initRiskService (some staleStatsC6) "2025-10-12" =
      freshDailyStats "2025-10-12") ∧
    (initRiskService (some sameDayStatsC6) "2025-10-12" = sameDayStatsC6) :=
  ⟨((C6_theorem staleStatsC6 "2025-10-12").1 (by decide)).1,
    (C6_theorem sameDayStatsC6 "2025-10-12").2 rfl⟩

/-- C7: `canPlaceTrade` returns the denial of the first failing limit in
the fixed order — max total positions, max single-order notional, max
trades today, max projected daily notional, max realized daily loss —
and allows exactly when every configured limit passes. -/
theorem C7_theorem :
    ∀ (cfg : RiskConfig) (stats : DailyStats)
      (orderNotional currentBalance : ℚ) (totalPositions : ℕ)
      (activeOrders : List OrderRec),
      canPlaceTrade cfg stats orderNotional currentBalance totalPositions
          activeOrders =
        (([(limitHitNat cfg.maxPositionsTotal totalPositions,
            RiskDenyReason.maxPositionsLimit),
           (limitExceededQ cfg.maxOrderNotional orderNotional,
            RiskDenyReason.orderNotionalLimit),
           (limitHitNat cfg.maxDailyTrades stats.tradesCount,
            RiskDenyReason.dailyTradesLimit),
           (limitExceededQ cfg.maxDailyNotional
              (stats.notionalSpent + orderNotional),
            RiskDenyReason.dailyNotionalLimit),
           (lossLimitHit cfg.maxDailyLoss stats.realizedPnl,
            RiskDenyReason.dailyLossLimit)].filter
          (fun pr => pr.1)).head?).map Prod.snd ∧
      (canPlaceTrade cfg stats orderNotional currentBalance totalPositions
          activeOrders = none ↔
        limitHitNat cfg.maxPositionsTotal totalPositions = false ∧
        limitExceededQ cfg.maxOrderNotional orderNotional = false ∧
        limitHitNat cfg.maxDailyTrades stats.tradesCount = false ∧
        limitExceededQ cfg.maxDailyNotional
          (stats.notionalSpent + orderNotional) = false ∧
        lossLimitHit cfg.maxDailyLoss stats.realizedPnl = false) := by
  intro cfg stats orderNotional currentBalance totalPositions activeOrders
  cases h1 : limitHitNat cfg.maxPositionsTotal totalPositions <;>
    cases h2 : limitExceededQ cfg.maxOrderNotional orderNotional <;>
      cases h3 : limitHitNat cfg.maxDailyTrades stats.tradesCount <;>
        cases h4 : limitExceededQ cfg.maxDailyNotional
            (stats.notionalSpent + orderNotional) <;>
          cases h5 : lossLimitHit cfg.maxDailyLoss stats.realizedPnl <;>
            simp [canPlaceTrade, h1, h2, h3, h4, h5]

/-- Inserting into a descending list permutes with consing. -/
theorem insertBundleDesc_perm (b : Bundle) (l : List Bundle) :
    List.Perm (insertBundleDesc b l) (b :: l) := by
  induction l with
  | nil => exact List.Perm.refl _
  | cons c cs ih =>
    by_cases h : c.edgePct < b.edgePct
    · simp [insertBundleDesc, h]
    · simp only [insertBundleDesc, if_neg h]
      exact (ih.cons c).trans (List.Perm.swap b c cs)

/-- The bundle sort is a permutation. -/
theorem sortBundlesDesc_perm (l : List Bundle) :
    List.Perm (sortBundlesDesc l) l := by
  induction l with
  | nil => exact List.Perm.refl _
  | cons b bs ih =>
    exact (insertBundleDesc_perm b (sortBundlesDesc bs)).trans (ih.cons b)

/-- Inserting into a list sorted by descending edge keeps it sorted. -/
theorem sorted_insertBundleDesc (b : Bundle) (l : List Bundle)
    (hl : List.Sorted (fun x y => y.edgePct ≤ x.edgePct) l) :
    List.Sorted (fun x y => y.edgePct ≤ x.edgePct) (insertBundleDesc b l) := by
  induction l with
  | nil => simp [insertBundleDesc]
  | cons c cs ih =>
    rw [List.sorted_cons] at hl
    by_cases h : c.edgePct < b.edgePct
    · simp only [insertBundleDesc, if_pos h]
      rw [List.sorted_cons]
      refine ⟨?_, ?_⟩
      · intro x hx
        rcases List.mem_cons.mp hx with rfl | hx2
        · exact le_of_lt h
        · exact le_trans (hl.1 x hx2) (le_of_lt h)
      · rw [List.sorted_cons]
        exact hl
    · simp only [insertBundleDesc, if_neg h]
      rw [List.sorted_cons]
      refine ⟨?_, ih hl.2⟩
      intro x hx
      have hx3 : x = b ∨ x ∈ cs := by
        have := (insertBundleDesc_perm b cs).mem_iff.mp hx
        simpa using this
      rcases hx3 with rfl | hx4
      · exact not_lt.mp h
      · exact hl.1 x hx4

/-- The bundle sort sorts by descending edge. -/
theorem sorted_sortBundlesDesc (l : List Bundle) :
    List.Sorted (fun x y => y.edgePct ≤ x.edgePct) (sortBundlesDesc l) := by
  induction l with
  | nil => simp [sortBundlesDesc]
  | cons b bs ih => exact sorted_insertBundleDesc b _ ih

/-- Characterization of one entry's bundle emission. -/
theorem mem_bundleOfEntry (feeBuffer : ℚ) (e : String × ArbEntry)
    (b : Bundle) :
    b ∈ bundleOfEntry feeBuffer e ↔
      ∃ h a : Market, e.2.home = some h ∧ e.2.away = some a ∧
        h.impliedProbability + a.impliedProbability < 1 - feeBuffer ∧
        b = ⟨e.2.game, h, a, h.impliedProbability + a.impliedProbability,
          (1 - feeBuffer - (h.impliedProbability + a.impliedProbability)) *
            100⟩ := by
  rcases he : e.2.home with _ | h
  · simp [bundleOfEntry, he]
  rcases ha : e.2.away with _ | a
  · simp [bundleOfEntry, he, ha]
  by_cases hc : h.impliedProbability + a.impliedProbability < 1 - feeBuffer
  · simp [bundleOfEntry, he, ha, hc]
  · simp [bundleOfEntry, he, ha, hc]

/-- Away-market half of the C8 example: probability 0.55 at 55 cents. -/
def awayMktC8 : Market :=
  ⟨"g1", ⟨"g1", "BOS", "NYK", "2025-11-30T00:00:00Z", none⟩,
    tk "KXNBAGAME-25NOVNYKBOS-NYK", .away, 55, 0.55⟩

/-- Home-market half of the C8 example: probability 0.40 at 40 cents. -/
def homeMktC8 : Market :=
  ⟨"g1", ⟨"g1", "BOS", "NYK", "2025-11-30T00:00:00Z", none⟩,
    tk "KXNBAGAME-25NOVNYKBOS-BOS", .home, 40, 0.40⟩

/-- C8: `findArbitrageBundles` emits a bundle for a grouped game exactly
when both a home and an away quote exist and their combined probability is
strictly below 1 minus the fee buffer, with
edgePct = (1 − feeBuffer − total) × 100; the result is sorted in descending
edge order; and the worked example homeProb 0.40, awayProb 0.55, feeBuffer
0.01 yields a single bundle of edgePct 4. -/
theorem C8_theorem :
    (∀ (markets : List Market) (feeBuffer : ℚ) (b : Bundle),
      b ∈ findArbitrageBundles markets feeBuffer ↔
        ∃ e ∈ markets.foldl insertArbMarket [], ∃ h a : Market,
          e.2.home = some h ∧ e.2.away = some a ∧
          h.impliedProbability + a.impliedProbability < 1 - feeBuffer ∧
          b = ⟨e.2.game, h, a, h.impliedProbability + a.impliedProbability,
            (1 - feeBuffer - (h.impliedProbability + a.impliedProbability)) *
              100⟩) ∧
    (∀ (markets : List Market) (feeBuffer : ℚ),
      List.Sorted (fun x y : Bundle => y.edgePct ≤ x.edgePct)
        (findArbitrageBundles markets feeBuffer)) ∧
    findArbitrageBundles [homeMktC8, awayMktC8] 0.01 =
      [⟨⟨"g1", "BOS", "NYK", "2025-11-30T00:00:00Z", none⟩, homeMktC8,
        awayMktC8, 0.95, 4⟩] := by
  refine ⟨?_, ?_, ?_⟩
  · intro markets feeBuffer b
    unfold findArbitrageBundles
    rw [(sortBundlesDesc_perm _).mem_iff, List.mem_flatMap]
    constructor
    · rintro ⟨e, he, hb⟩
      exact ⟨e, he, (mem_bundleOfEntry feeBuffer e b).mp hb⟩
    · rintro ⟨e, he, hb⟩
      exact ⟨e, he, (mem_bundleOfEntry feeBuffer e b).mpr hb⟩
  · intro markets feeBuffer
    exact sorted_sortBundlesDesc _
  · norm_num [findArbitrageBundles, insertArbMarket, setArbSide,
      bundleOfEntry, sortBundlesDesc, insertBundleDesc, homeMktC8, awayMktC8]

/-- Every mispricing a side emission produces meets the raw-divergence
threshold. -/
theorem emitSideMispricing_sound (cfg : BotConfig) (g : Game)
    (mkt : Option Market) (espnProb espnOddsVal : Option ℚ) (side : Side)
    (mp : Mispricing) (h : mp ∈ emitSideMispricing cfg g mkt espnProb espnOddsVal side) :
    cfg.mispricingThresholdPct * 100 ≤ mp.differencePct := by
  rcases mkt with _ | m
  · simp [emitSideMispricing] at h
  rcases espnProb with _ | p
  · simp [emitSideMispricing] at h
  by_cases hc : cfg.mispricingThresholdPct * 100 ≤
      probabilityDifferencePct m.impliedProbability p
  · simp only [emitSideMispricing, if_pos hc, List.mem_singleton] at h
    rw [h]
    exact hc
  · simp [emitSideMispricing, hc] at h

/-- Characterization of one grouped entry's emission: a mispricing appears
for an entry exactly when ESPN odds are attached and one side has both a
Kalshi market and an ESPN probability whose raw divergence meets the
threshold; no cost floor is involved. -/
theorem mem_mispricingsOfEntry (cfg : BotConfig) (e : String × GameData)
    (mp : Mispricing) :
    mp ∈ mispricingsOfEntry cfg e ↔
      ∃ esp, e.2.espn = some esp ∧
        ((∃ m p, e.2.kalshiHome = some m ∧
            esp.homeImpliedProbability = some p ∧
            cfg.mispricingThresholdPct * 100 ≤
              probabilityDifferencePct m.impliedProbability p ∧
            mp = ⟨m.ticker, esp.game, .home, m.price, m.impliedProbability,
              (esp.homeOdds).getD 0, p, |m.impliedProbability - p|,
              probabilityDifferencePct m.impliedProbability p,
              decide (p < m.impliedProbability)⟩) ∨
          (∃ m p, e.2.kalshiAway = some m ∧
            esp.awayImpliedProbability = some p ∧
            cfg.mispricingThresholdPct * 100 ≤
              probabilityDifferencePct m.impliedProbability p ∧
            mp = ⟨m.ticker, esp.game, .away, m.price, m.impliedProbability,
              (esp.awayOdds).getD 0, p, |m.impliedProbability - p|,
              probabilityDifferencePct m.impliedProbability p,
              decide (p < m.impliedProbability)⟩)) := by
  have hemit : ∀ (g : Game) (mkt : Option Market) (ep eo : Option ℚ)
      (side : Side),
      mp ∈ emitSideMispricing cfg g mkt ep eo side ↔
        ∃ m p, mkt = some m ∧ ep = some p ∧
          cfg.mispricingThresholdPct * 100 ≤
            probabilityDifferencePct m.impliedProbability p ∧
          mp = ⟨m.ticker, g, side, m.price, m.impliedProbability, eo.getD 0,
            p, |m.impliedProbability - p|,
            probabilityDifferencePct m.impliedProbability p,
            decide (p < m.impliedProbability)⟩ := by
    intro g mkt ep eo side
    rcases mkt with _ | m
    · simp [emitSideMispricing]
    rcases ep with _ | p
    · simp [emitSideMispricing]
    by_cases hc : cfg.mispricingThresholdPct * 100 ≤
        probabilityDifferencePct m.impliedProbability p
    · simp [emitSideMispricing, hc]
    · simp [emitSideMispricing, hc]
  rcases hesp : e.2.espn with _ | esp
  · simp [mispricingsOfEntry, hesp]
  · simp only [mispricingsOfEntry, hesp, List.mem_append, hemit]
    constructor
    · rintro (h | h)
      · exact ⟨esp, rfl, Or.inl h⟩
      · exact ⟨esp, rfl, Or.inr h⟩
    · rintro ⟨esp2, hesp2, h⟩
      obtain rfl := Option.some_inj.mp hesp2
      exact h

/-- Bot configuration of the C1 scenario: the default 10pp threshold and
the default 0.05 minimum-edge-after-costs floor, as parsed by
config/index.ts. -/
def cfgC1 : BotConfig := ⟨0.10, some 0.05⟩

/-- Kalshi home-side market of the C1 scenario: implied probability 0.5. -/
def mktC1 : Market :=
  ⟨"e1", ⟨"e1", "BOS", "NYK", "2025-11-30T00:00:00Z", none⟩,
    tk "KXNBAGAME-25NOVNYKBOS-BOS", .home, 50, 0.5⟩

/-- ESPN odds of the C1 scenario: home implied probability 0.4. -/
def oddsC1 : SportsbookOdds :=
  ⟨⟨"e1", "BOS", "NYK", "2025-11-30T00:00:00Z", none⟩, some 150, none,
    some 0.4, none⟩

/-- C1, counterexample: with the configured minimum-edge floor present
(0.05) and a 10pp threshold, a matched pair whose raw divergence is exactly
10pp IS flagged by `findMispricings`, although its divergence net of the
cost floor (under either reading of the floor's units, 0.05 or 5pp) does
not meet the threshold — so no floor is subtracted before the comparison. -/
theorem C1_counterexample :
    cfgC1.minEdgeAfterCostsPct = some 0.05 ∧
    cfgC1.mispricingThresholdPct * 100 = 10 ∧
    (findMispricings cfgC1 [mktC1] [oddsC1]).map
      (fun mp => mp.differencePct) = [10] ∧
    ¬ (10 : ℚ) - 0.05 ≥ 10 ∧ ¬ (10 : ℚ) - 0.05 * 100 ≥ 10 := by
  refine ⟨rfl, by norm_num [cfgC1], ?_, by norm_num, by norm_num⟩
  norm_num [findMispricings, insertKalshiMarket, attachEspnOdds,
    mispricingsOfEntry, emitSideMispricing, setKalshiSide, mispricingGameKey,
    reverseGameKey, probabilityDifferencePct, cfgC1, mktC1, oddsC1,
    abs_eq_max_neg, max_def]

/-- C1 (amended): `findMispricings` compares the raw divergence
|quoteProb − refProb| × 100 directly against the mispricing threshold: every
flagged pair meets the threshold on raw divergence, the flagged set for a
grouped entry is exactly the sides whose raw divergence meets the
threshold, and the configured minimum-edge-after-cost floor
(`minEdgeAfterCostsPct`) is never consulted — outputs are identical under
any value of the floor. -/
theorem C1_theorem :
    (∀ (cfg : BotConfig) (markets : List Market)
      (odds : List SportsbookOdds) (mp : Mispricing),
      mp ∈ findMispricings cfg markets odds →
        cfg.mispricingThresholdPct * 100 ≤ mp.differencePct) ∧
    (∀ (t : ℚ) (e1 e2 : Option ℚ) (markets : List Market)
      (odds : List SportsbookOdds),
      findMispricings ⟨t, e1⟩ markets odds =
        findMispricings ⟨t, e2⟩ markets odds) ∧
    (∀ (cfg : BotConfig) (e : String × GameData) (mp : Mispricing),
      mp ∈ mispricingsOfEntry cfg e ↔
        ∃ esp, e.2.espn = some esp ∧
          ((∃ m p, e.2.kalshiHome = some m ∧
              esp.homeImpliedProbability = some p ∧
              cfg.mispricingThresholdPct * 100 ≤
                probabilityDifferencePct m.impliedProbability p ∧
              mp = ⟨m.ticker, esp.game, .home, m.price,
                m.impliedProbability, (esp.homeOdds).getD 0, p,
                |m.impliedProbability - p|,
                probabilityDifferencePct m.impliedProbability p,
                decide (p < m.impliedProbability)⟩) ∨
            (∃ m p, e.2.kalshiAway = some m ∧
              esp.awayImpliedProbability = some p ∧
              cfg.mispricingThresholdPct * 100 ≤
                probabilityDifferencePct m.impliedProbability p ∧
              mp = ⟨m.ticker, esp.game, .away, m.price,
                m.impliedProbability, (esp.awayOdds).getD 0, p,
                |m.impliedProbability - p|,
                probabilityDifferencePct m.impliedProbability p,
                decide (p < m.impliedProbability)⟩))) := by
  refine ⟨?_, ?_, mem_mispricingsOfEntry⟩
  · intro cfg markets odds mp hmp
    unfold findMispricings at hmp
    rw [List.mem_flatMap] at hmp
    obtain ⟨e, _, he⟩ := hmp
    rcases hesp : e.2.espn with _ | esp
    · simp [mispricingsOfEntry, hesp] at he
    · simp only [mispricingsOfEntry, hesp, List.mem_append] at he
      rcases he with h | h
      · exact emitSideMispricing_sound cfg esp.game e.2.kalshiHome
          esp.homeImpliedProbability esp.homeOdds .home mp h
      · exact emitSideMispricing_sound cfg esp.game e.2.kalshiAway
          esp.awayImpliedProbability esp.awayOdds .away mp h
  · intro t e1 e2 markets odds
    rfl

/-- C1 witness: the soundness half applied to the C1 scenario — the one
flagged pair meets the 10pp threshold on raw divergence. -/
theorem C1_witness :
    cfgC1.mispricingThresholdPct * 100 ≤
      (⟨tk "KXNBAGAME-25NOVNYKBOS-BOS",
        ⟨"e1", "BOS", "NYK", "2025-11-30T00:00:00Z", none⟩, .home, 50, 0.5,
        150, 0.4, |(0.5 : ℚ) - 0.4|, probabilityDifferencePct 0.5 0.4,
        true⟩ : Mispricing).differencePct :=
  C1_theorem.1 cfgC1 [mktC1] [oddsC1] _ (by
    norm_num [findMispricings, insertKalshiMarket, attachEspnOdds,
      mispricingsOfEntry, emitSideMispricing, setKalshiSide,
      mispricingGameKey, reverseGameKey, probabilityDifferencePct, cfgC1,
      mktC1, oddsC1, abs_eq_max_neg, max_def])

/-- Position of the C4 scenario: 5 contracts of YES at average entry 40¢. -/
def posC4 : PositionRec :=
  ⟨tk "KXNBAGAME-26JAN01DETBOS-BOS", 5, "yes", some 0.40, 0, none⟩

/-- Resting sell covering 2 of the 5 contracts in the C4 scenario. -/
def ordC4 : OrderRec :=
  ⟨tk "KXNBAGAME-26JAN01DETBOS-BOS", "yes", "sell", "resting", 2⟩

/-- Exit rules of the C4 scenario: take profit at +2¢ per contract. -/
def rulesC4 : ExitRule := ⟨some 2, none, none, none⟩

/-- Market of the C4 scenario: best bid 43¢. -/
def mdC4 : MarketData := ⟨some 44, some 43, none, none, some 43⟩

/-- C4, counterexample: an exit is decided at best bid 43¢ for a 5-contract
position of which 2 are already covered by a resting sell, yet the exit
order `placeExitOrder` builds sells the full 5 contracts, not the un-exited
3. -/
theorem C4_counterexample :
    evaluatePositionExit rulesC4 posC4 [ordC4] (some mdC4) 0 =
      ⟨true, some 43, some (.tpCents 3)⟩ ∧
    placeExitOrder false posC4 43 =
      some ⟨tk "KXNBAGAME-26JAN01DETBOS-BOS", "yes", "sell", 5, 43⟩ ∧
    posC4.position - restingSellRemaining posC4.ticker [ordC4] = 3 ∧
    (5 : ℤ) ≠ 3 := by
  refine ⟨?_, ?_, ?_, by norm_num⟩
  · norm_num [evaluatePositionExit, exitRulesDecision, restingSellRemaining,
      posC4, ordC4, rulesC4, mdC4, round_eq, noExit]
  · norm_num [placeExitOrder, posC4]
  · norm_num [restingSellRemaining, posC4, ordC4]

/-- C4 (amended): `placeExitOrder` submits a limit sell at the exit price
floored, lowered one tick when the improve-exit flag is set, clamped to
[1, 99] — but for the full position quantity.  The un-exited quantity
(position minus contracts already covered by resting or pending sells) only
gates the decision: when nothing un-exited remains, `evaluatePositionExit`
is a no-op, and every exit it does decide carries the side-derived best bid
as its exit price. -/
theorem C4_theorem :
    (∀ (improve : Bool) (pos : PositionRec) (exitPrice : ℚ),
      0 < pos.position →
      placeExitOrder improve pos exitPrice =
        some ⟨pos.ticker,
          if pos.market_result == "yes" then "yes" else "no", "sell",
          pos.position,
          max 1 (min 99 (if improve then max 1 (⌊exitPrice⌋ - 1)
            else ⌊exitPrice⌋))⟩) ∧
    (∀ (rules : ExitRule) (pos : PositionRec) (orders : List OrderRec)
      (fetched : Option MarketData) (now : ℤ),
      pos.position - restingSellRemaining pos.ticker orders ≤ 0 →
      evaluatePositionExit rules pos orders fetched now = noExit) ∧
    (∀ (rules : ExitRule) (pos : PositionRec) (orders : List OrderRec)
      (md : MarketData) (now : ℤ),
      evaluatePositionExit rules pos orders (some md) now = noExit ∨
      (evaluatePositionExit rules pos orders (some md) now).exitPrice =
        (if pos.market_result == "yes" then md.yes_bid
         else md.yes_ask.map (fun v => 100 - v))) := by
  refine ⟨?_, ?_, ?_⟩
  · intro improve pos exitPrice hpos
    simp only [placeExitOrder, if_neg (not_le.mpr hpos)]
  · intro rules pos orders fetched now hqty
    by_cases hzero : pos.position = 0
    · simp [evaluatePositionExit, hzero]
    · simp only [evaluatePositionExit, if_neg hzero, if_pos hqty]
  · intro rules pos orders md now
    have hrule : ∀ (cp bb : ℚ) (epc : ℤ) (pnl : ℚ) (ts : Option ℤ) (ns : ℤ),
        exitRulesDecision rules cp bb epc pnl ts ns = noExit ∨
          (exitRulesDecision rules cp bb epc pnl ts ns).exitPrice =
            some bb := by
      intro cp bb epc pnl ts ns
      rcases h1 : rules.takeProfitCentsPerContract with _ | tp1 <;>
        rcases h2 : rules.takeProfitPctOfCost with _ | tp2 <;>
          rcases h3 : rules.stopLossPct with _ | sl <;>
            rcases h4 : rules.maxHoldMinutes with _ | mh <;>
              rcases h5 : ts with _ | t0 <;>
                simp only [exitRulesDecision, h1, h2, h3, h4, h5] <;>
                  (try split_ifs) <;> simp [noExit]
    simp only [evaluatePositionExit]
    repeat' split
    all_goals try (left; rfl)
    all_goals
      refine (hrule _ _ _ _ pos.open_ts now).elim Or.inl (fun h => Or.inr ?_)
    all_goals try simp_all
    all_goals
      obtain ⟨a, ha, hba⟩ := ‹∃ a, md.yes_ask = some a ∧ 100 - a = _›
    all_goals simp_all

/-- C4 witness: the amended exit-order shape applied to the C4 position at
exit price 43 with the improve-exit tick set, and the no-op gate applied
when all 5 contracts are already covered by a resting sell. -/
theorem C4_witness :
    placeExitOrder true posC4 43 =
      some ⟨posC4.ticker,
        if posC4.market_result == "yes" then "yes" else "no", "sell",
        posC4.position,
        max 1 (min 99 (if true then max 1 (⌊(43 : ℚ)⌋ - 1)
          else ⌊(43 : ℚ)⌋))⟩ ∧
    evaluatePositionExit rulesC4 posC4
      [⟨posC4.ticker, "yes", "sell", "resting", 5⟩] (some mdC4) 0 = noExit :=
  ⟨C4_theorem.1 true posC4 43 (by norm_num [posC4]),
   C4_theorem.2.1 rulesC4 posC4 [⟨posC4.ticker, "yes", "sell", "resting", 5⟩]
     (some mdC4) 0 (by norm_num [posC4, restingSellRemaining])⟩

/-- C10: `hasPendingOrder` holds exactly when some order on the same ticker
or the same game has status resting, pending — or executed — with positive
remaining contracts; and whenever it holds (with the run-guard and position
checks passing), `placeTrade` rejects with the pending-order result. -/
theorem C10_theorem :
    (∀ (t : Ticker) (orders : List OrderRec),
      hasPendingOrder t orders = true ↔
        ∃ o ∈ orders,
          (o.ticker = t ∨ isSameGameTicker o.ticker t = true) ∧
          (o.status = "resting" ∨ o.status = "pending" ∨
            o.status = "executed") ∧
          0 < o.remaining_count) ∧
    (∀ (tc : TradingConfig) (env : TradeEnv) (st : TradingState)
      (strategy : StrategyName) (m : Mispricing) (t : Ticker)
      (ps : List PositionRec) (os : List OrderRec) (d : Option ℚ),
      (∀ k, getGameKeyFromTicker t = some k → k ∉ st.tradedGameKeys) →
      findExistingPositionForMarket t ps = none →
      hasPendingOrder t (env.refreshedOrders.getD os) = true →
      (placeTrade tc env st strategy m t ps os d).1 =
        ⟨false, none, some "Pending order found"⟩) := by
  constructor
  · intro t orders
    simp only [hasPendingOrder, orderBlocks, List.any_eq_true, Bool.and_eq_true,
      Bool.or_eq_true, beq_iff_eq, decide_eq_true_eq]
    constructor
    · rintro ⟨o, ho, ⟨h1, h2⟩, h3⟩
      exact ⟨o, ho, h1, by tauto, h3⟩
    · rintro ⟨o, ho, h1, h2, h3⟩
      exact ⟨o, ho, ⟨h1, by tauto⟩, h3⟩
  · intro tc env st strategy m t ps os d hkey hpos hpend
    have halready : (match getGameKeyFromTicker t with
        | some k => decide (k ∈ st.tradedGameKeys)
        | none => false) = false := by
      rcases hk : getGameKeyFromTicker t with _ | k
      · simp [hk]
      · simp [hk, hkey k hk]
    simp [placeTrade, hpos, hpend, halready]

/-- Mispricing of the C10 witness scenario. -/
def mSample : Mispricing :=
  ⟨tk "KXNBAGAME-26JAN02MIABOS-BOS",
    ⟨"e2", "BOS", "MIA", "2026-01-02T00:00:00Z", none⟩, .home, 40, 0.40,
    150, 0.55, 0.15, 15, false⟩

/-- Trading configuration of the C10 witness scenario. -/
def tcSample : TradingConfig :=
  ⟨false, 10, some 5, none, none, none, some 100, none, none⟩

/-- Executed buy order with positive remaining contracts (C10 scenario). -/
def ordC10 : OrderRec :=
  ⟨tk "KXNBAGAME-26JAN02MIABOS-BOS", "yes", "buy", "executed", 3⟩

/-- C10 witness: an order whose status is executed but which reports 3
remaining contracts blocks a new entry on the same market with the
pending-order result. -/
theorem C10_witness :
    (placeTrade tcSample ⟨none, none, .noOrder⟩ initialTradingState
      .mispricing mSample (tk "KXNBAGAME-26JAN02MIABOS-BOS") [] [ordC10]
      none).1 = ⟨false, none, some "Pending order found"⟩ :=
  C10_theorem.2 tcSample ⟨none, none, .noOrder⟩ initialTradingState
    .mispricing mSample (tk "KXNBAGAME-26JAN02MIABOS-BOS") [] [ordC10] none
    (by intro k _; simp [initialTradingState]) rfl (by decide)

/-- Registering spend never touches the traded-game set. -/
theorem registerStrategySpend_tradedGameKeys (st : TradingState)
    (s : StrategyName) (a : ℚ) :
    (registerStrategySpend st s a).tradedGameKeys = st.tradedGameKeys := by
  unfold registerStrategySpend setStrategyCapitalUsed
  split_ifs
  · rfl
  · cases s <;> rfl

/-- A game key already in the run's traded set makes `placeTrade` reject
immediately, leaving the state unchanged. -/
theorem placeTrade_alreadyTraded (tc : TradingConfig) (env : TradeEnv)
    (st : TradingState) (strategy : StrategyName) (m : Mispricing)
    (t : Ticker) (ps : List PositionRec) (os : List OrderRec) (d : Option ℚ)
    (k : Ticker) (hk : getGameKeyFromTicker t = some k)
    (hmem : k ∈ st.tradedGameKeys) :
    placeTrade tc env st strategy m t ps os d =
      (⟨false, none, some "Game already traded in this run"⟩, st) := by
  simp [placeTrade, hk, hmem]

/-- In live mode, a successful `placeTrade` marks the game key as traded. -/
theorem placeTrade_live_success_mem (tc : TradingConfig) (env : TradeEnv)
    (st : TradingState) (strategy : StrategyName) (m : Mispricing)
    (t : Ticker) (ps : List PositionRec) (os : List OrderRec) (d : Option ℚ)
    (k : Ticker) (hlive : tc.liveTrades = true)
    (hk : getGameKeyFromTicker t = some k)
    (hs : (placeTrade tc env st strategy m t ps os d).1.success = true) :
    k ∈ (placeTrade tc env st strategy m t ps os d).2.tradedGameKeys := by
  by_cases h1 : k ∈ st.tradedGameKeys
  · rw [placeTrade_alreadyTraded tc env st strategy m t ps os d k hk h1] at hs
    simp at hs
  rcases h2 : findExistingPositionForMarket t ps with _ | p
  swap
  · exfalso
    simp [placeTrade, hk, h1, h2] at hs
  by_cases h3 : hasPendingOrder t (env.refreshedOrders.getD os) = true
  · exfalso
    simp [placeTrade, hk, h1, h2, h3] at hs
  by_cases h4 : cappedStake tc st strategy m d < 1
  · exfalso
    simp [placeTrade, hk, h1, h2, h3, h4] at hs
  rcases h5 : env.submit with oid | _ | msg
  · simp [placeTrade, hk, hlive, h1, h2, h3, h4, h5,
      registerStrategySpend_tradedGameKeys]
  · exfalso
    simp [placeTrade, hk, hlive, h1, h2, h3, h4, h5] at hs
  · exfalso
    simp [placeTrade, hk, hlive, h1, h2, h3, h4, h5] at hs

/-- In dry-run mode, `placeTrade` never changes the traded-game set. -/
theorem placeTrade_dryRun_keys (tc : TradingConfig) (env : TradeEnv)
    (st : TradingState) (strategy : StrategyName) (m : Mispricing)
    (t : Ticker) (ps : List PositionRec) (os : List OrderRec)
    (d : Option ℚ) (hdry : tc.liveTrades = false) :
    (placeTrade tc env st strategy m t ps os d).2.tradedGameKeys =
      st.tradedGameKeys := by
  simp only [placeTrade, hdry]
  repeat' split
  all_goals simp_all [registerStrategySpend_tradedGameKeys]

/-- Live trading configuration of the C3 scenario: live trades on, $5 max
bet, $100 mispricing-strategy cap. -/
def tcC3 : TradingConfig :=
  ⟨true, 10, some 5, none, none, none, some 100, none, none⟩

/-- Game of the C3 scenario. -/
def gameC3 : Game := ⟨"e3", "TB", "ARI", "2025-11-30T17:00:00Z", none⟩

/-- Home-side (ARI) mispricing of the C3 scenario: Kalshi undervalues. -/
def mC3a : Mispricing :=
  ⟨tk "KXNFLGAME-25NOV30ARITB-ARI", gameC3, .home, 40, 0.40, 150, 0.55,
    0.15, 15, false⟩

/-- Away-side (TB) mispricing of the C3 scenario. -/
def mC3b : Mispricing :=
  ⟨tk "KXNFLGAME-25NOV30ARITB-TB", gameC3, .away, 60, 0.60, -150, 0.45,
    0.15, 15, true⟩

/-- Both C3 tickers resolve to the shared core game key. -/
theorem gameKeyC3a :
    getGameKeyFromTicker (tk "KXNFLGAME-25NOV30ARITB-ARI") =
      some (tk "25NOV30ARITB") := by decide

/-- Away-side key of the C3 scenario equals the same core. -/
theorem gameKeyC3b :
    getGameKeyFromTicker (tk "KXNFLGAME-25NOV30ARITB-TB") =
      some (tk "25NOV30ARITB") := by decide

/-- C3, counterexample: in live mode, after a successful `placeTrade` on
the ARI side of the game, the TB-side call of the same game is rejected —
but with the run-guard reason "Game already traded in this run", not the
"Existing position found" reason the claim names. -/
theorem C3_counterexample :
    placeTrade tcC3 ⟨none, none, .ok "order-1"⟩ initialTradingState
        .mispricing mC3a (tk "KXNFLGAME-25NOV30ARITB-ARI") [] [] none =
      (⟨true, some "order-1", none⟩,
        ⟨[tk "25NOV30ARITB"], 0, 0, 24/5⟩) ∧
    placeTrade tcC3 ⟨none, none, .ok "order-2"⟩
        ⟨[tk "25NOV30ARITB"], 0, 0, 24/5⟩ .mispricing mC3b
        (tk "KXNFLGAME-25NOV30ARITB-TB") [] [] none =
      (⟨false, none, some "Game already traded in this run"⟩,
        ⟨[tk "25NOV30ARITB"], 0, 0, 24/5⟩) ∧
    ("Game already traded in this run" : String) ≠
      "Existing position found" := by
  refine ⟨?_, ?_, by decide⟩
  · norm_num [placeTrade, gameKeyC3a, cappedStake, resolveBuyPrice,
      getRemainingStrategyCapital, getStrategyLimit, strategyCapitalUsed,
      registerStrategySpend, setStrategyCapitalUsed, roundToCents,
      findExistingPositionForMarket, hasPendingOrder, initialTradingState,
      tcC3, mC3a, round_eq, max_def, min_def]
  · exact placeTrade_alreadyTraded tcC3 ⟨none, none, .ok "order-2"⟩
      ⟨[tk "25NOV30ARITB"], 0, 0, 24/5⟩ .mispricing mC3b
      (tk "KXNFLGAME-25NOV30ARITB-TB") [] [] none (tk "25NOV30ARITB")
      gameKeyC3b (List.mem_singleton.mpr rfl)

/-- C3 (amended): within one process run, after a live-mode `placeTrade`
succeeds on one side of a game, a subsequent call for the opposite side of
the same game (same game key) is rejected with the run-guard reason "Game
already traded in this run" — not an "existing position" reason; a dry-run
success does not mark the game key, so this guard does not arm in dry-run
mode. -/
theorem C3_theorem :
    (∀ (tc : TradingConfig) (env1 env2 : TradeEnv) (st : TradingState)
      (strat1 strat2 : StrategyName) (m1 m2 : Mispricing) (t1 t2 : Ticker)
      (ps1 ps2 : List PositionRec) (os1 os2 : List OrderRec)
      (d1 d2 : Option ℚ) (k : Ticker),
      tc.liveTrades = true →
      getGameKeyFromTicker t1 = some k →
      getGameKeyFromTicker t2 = some k →
      (placeTrade tc env1 st strat1 m1 t1 ps1 os1 d1).1.success = true →
      placeTrade tc env2 (placeTrade tc env1 st strat1 m1 t1 ps1 os1 d1).2
          strat2 m2 t2 ps2 os2 d2 =
        (⟨false, none, some "Game already traded in this run"⟩,
          (placeTrade tc env1 st strat1 m1 t1 ps1 os1 d1).2)) ∧
    (∀ (tc : TradingConfig) (env : TradeEnv) (st : TradingState)
      (strategy : StrategyName) (m : Mispricing) (t : Ticker)
      (ps : List PositionRec) (os : List OrderRec) (d : Option ℚ),
      tc.liveTrades = false →
      (placeTrade tc env st strategy m t ps os d).2.tradedGameKeys =
        st.tradedGameKeys) := by
  constructor
  · intro tc env1 env2 st strat1 strat2 m1 m2 t1 t2 ps1 ps2 os1 os2 d1 d2 k
      hlive hk1 hk2 hs
    exact placeTrade_alreadyTraded tc env2 _ strat2 m2 t2 ps2 os2 d2 k hk2
      (placeTrade_live_success_mem tc env1 st strat1 m1 t1 ps1 os1 d1 k
        hlive hk1 hs)
  · intro tc env st strategy m t ps os d hdry
    exact placeTrade_dryRun_keys tc env st strategy m t ps os d hdry

/-- C3 witness: the amended rejection applied to the concrete C3 run. -/
theorem C3_witness :
    placeTrade tcC3 ⟨none, none, .ok "order-2"⟩
        (placeTrade tcC3 ⟨none, none, .ok "order-1"⟩ initialTradingState
          .mispricing mC3a (tk "KXNFLGAME-25NOV30ARITB-ARI") [] [] none).2
        .mispricing mC3b (tk "KXNFLGAME-25NOV30ARITB-TB") [] [] none =
      (⟨false, none, some "Game already traded in this run"⟩,
        (placeTrade tcC3 ⟨none, none, .ok "order-1"⟩ initialTradingState
          .mispricing mC3a (tk "KXNFLGAME-25NOV30ARITB-ARI") [] [] none).2) :=
  C3_theorem.1 tcC3 ⟨none, none, .ok "order-1"⟩ ⟨none, none, .ok "order-2"⟩
    initialTradingState .mispricing .mispricing mC3a mC3b
    (tk "KXNFLGAME-25NOV30ARITB-ARI") (tk "KXNFLGAME-25NOV30ARITB-TB")
    [] [] [] [] none none (tk "25NOV30ARITB") rfl gameKeyC3a gameKeyC3b
    (by norm_num [placeTrade, gameKeyC3a, cappedStake, resolveBuyPrice,
      getRemainingStrategyCapital, getStrategyLimit, strategyCapitalUsed,
      registerStrategySpend, setStrategyCapitalUsed, roundToCents,
      findExistingPositionForMarket, hasPendingOrder, initialTradingState,
      tcC3, mC3a, round_eq, max_def, min_def])

/-- A call whose resolved buy price is a whole number of cents in (0, 100],
as venue quotes are (spec §6: integer cents). -/
def priceIsValidCents (c : TradeCall) : Prop :=
  ∃ n : ℤ, 0 < n ∧ n ≤ 100 ∧
    resolveBuyPrice (if c.m.isKalshiOvervaluing then "no" else "yes")
      c.env.fetchedMarket c.m = (n : ℚ)

/-- Registered spend of one accepted trade: nonnegative and at most the
stake, when the price is a whole number of cents in (0, 100] and the stake
is at least $1. -/
theorem roundToCents_spend_le (bet : ℚ) (n : ℤ) (hn0 : 0 < n)
    (hn100 : n ≤ 100) (hbet : 1 ≤ bet) :
    0 ≤ roundToCents ((max ⌊bet / ((n : ℚ) / 100)⌋ 1 : ℤ) *
        ((n : ℚ) / 100)) ∧
      roundToCents ((max ⌊bet / ((n : ℚ) / 100)⌋ 1 : ℤ) *
        ((n : ℚ) / 100)) ≤ bet := by
  have hc0 : (0 : ℚ) < (n : ℚ) / 100 := by
    have : (0 : ℚ) < (n : ℚ) := by exact_mod_cast hn0
    linarith
  have hc1 : (n : ℚ) / 100 ≤ 1 := by
    have : (n : ℚ) ≤ 100 := by exact_mod_cast hn100
    linarith
  have hq : (1 : ℚ) ≤ bet / ((n : ℚ) / 100) :=
    (one_le_div hc0).mpr (le_trans hc1 hbet)
  have hfl : (1 : ℤ) ≤ ⌊bet / ((n : ℚ) / 100)⌋ :=
    Int.le_floor.mpr (by exact_mod_cast hq)
  have hmax : (max ⌊bet / ((n : ℚ) / 100)⌋ 1 : ℤ) =
      ⌊bet / ((n : ℚ) / 100)⌋ := max_eq_left hfl
  have hkc : (⌊bet / ((n : ℚ) / 100)⌋ : ℚ) * ((n : ℚ) / 100) ≤ bet := by
    have hfle : (⌊bet / ((n : ℚ) / 100)⌋ : ℚ) ≤ bet / ((n : ℚ) / 100) :=
      Int.floor_le _
    calc (⌊bet / ((n : ℚ) / 100)⌋ : ℚ) * ((n : ℚ) / 100)
        ≤ bet / ((n : ℚ) / 100) * ((n : ℚ) / 100) := by
          exact mul_le_mul_of_nonneg_right hfle (le_of_lt hc0)
      _ = bet := div_mul_cancel₀ bet (ne_of_gt hc0)
  have hexact : roundToCents ((⌊bet / ((n : ℚ) / 100)⌋ : ℚ) *
      ((n : ℚ) / 100)) = (⌊bet / ((n : ℚ) / 100)⌋ : ℚ) * ((n : ℚ) / 100) := by
    unfold roundToCents
    have harg : (⌊bet / ((n : ℚ) / 100)⌋ : ℚ) * ((n : ℚ) / 100) * 100 =
        ((⌊bet / ((n : ℚ) / 100)⌋ * n : ℤ) : ℚ) := by
      push_cast
      field_simp
    rw [harg, round_intCast]
    push_cast
    field_simp
  have hpos : 0 ≤ (⌊bet / ((n : ℚ) / 100)⌋ : ℚ) * ((n : ℚ) / 100) := by
    have h1 : (0 : ℚ) ≤ (⌊bet / ((n : ℚ) / 100)⌋ : ℚ) := by
      exact_mod_cast le_trans (by norm_num) hfl
    exact mul_nonneg h1 (le_of_lt hc0)
  rw [hmax, hexact]
  exact ⟨hpos, hkc⟩

/-- The stake after all caps never exceeds the remaining per-strategy
capital when a cap is configured. -/
theorem cappedStake_le_remaining (tc : TradingConfig) (st : TradingState)
    (strategy : StrategyName) (m : Mispricing) (d : Option ℚ) (limit : ℚ)
    (h : getStrategyLimit tc strategy = some limit) :
    cappedStake tc st strategy m d ≤
      max 0 (limit - strategyCapitalUsed st strategy) := by
  unfold cappedStake getRemainingStrategyCapital
  rw [h]
  exact min_le_right _ _

/-- Registering spend on one strategy leaves the other ledgers unchanged. -/
theorem strategyCapitalUsed_register_ne (st : TradingState)
    (s s' : StrategyName) (a : ℚ) (h : s' ≠ s) :
    strategyCapitalUsed (registerStrategySpend st s a) s' =
      strategyCapitalUsed st s' := by
  unfold registerStrategySpend
  split_ifs
  · rfl
  · cases s <;> cases s' <;>
      simp_all [setStrategyCapitalUsed, strategyCapitalUsed]

/-- Registering spend adds the (positive) amount to that strategy's
ledger. -/
theorem strategyCapitalUsed_register_self (st : TradingState)
    (s : StrategyName) (a : ℚ) :
    strategyCapitalUsed (registerStrategySpend st s a) s =
      if a ≤ 0 then strategyCapitalUsed st s
      else strategyCapitalUsed st s + a := by
  unfold registerStrategySpend
  split_ifs
  · rfl
  · cases s <;> simp [setStrategyCapitalUsed, strategyCapitalUsed]

/-- Marking a game key as traded leaves every capital ledger unchanged. -/
theorem strategyCapitalUsed_markKeys (st : TradingState) (k : Ticker)
    (s : StrategyName) :
    strategyCapitalUsed
      { st with tradedGameKeys := k :: st.tradedGameKeys } s =
      strategyCapitalUsed st s := by
  cases s <;> rfl

/-- One `placeTrade` call preserves the per-strategy cap invariant: if a
strategy's ledger is within its configured cap before the call and the
call's resolved price is a whole number of cents in (0, 100], the ledger is
within the cap afterwards. -/
theorem placeTrade_capital_le (tc : TradingConfig) (env : TradeEnv)
    (st : TradingState) (strategy : StrategyName) (m : Mispricing)
    (t : Ticker) (ps : List PositionRec) (os : List OrderRec) (d : Option ℚ)
    (hprice : ∃ n : ℤ, 0 < n ∧ n ≤ 100 ∧
      resolveBuyPrice (if m.isKalshiOvervaluing then "no" else "yes")
        env.fetchedMarket m = (n : ℚ))
    (s : StrategyName) (limit : ℚ)
    (hlim : getStrategyLimit tc s = some limit)
    (hle : strategyCapitalUsed st s ≤ limit) :
    strategyCapitalUsed (placeTrade tc env st strategy m t ps os d).2 s ≤
      limit := by
  obtain ⟨n, hn0, hn100, hnp⟩ := hprice
  have hspend : ∀ st' : TradingState,
      (∀ s', strategyCapitalUsed st' s' = strategyCapitalUsed st s') →
      ¬ cappedStake tc st strategy m d < 1 →
      strategyCapitalUsed (registerStrategySpend st' strategy
        (roundToCents ((max ⌊cappedStake tc st strategy m d /
            (resolveBuyPrice (if m.isKalshiOvervaluing then "no" else "yes")
              env.fetchedMarket m / 100)⌋ 1 : ℤ) *
          (resolveBuyPrice (if m.isKalshiOvervaluing then "no" else "yes")
            env.fetchedMarket m / 100)))) s ≤ limit := by
    intro st' hall h4
    rw [hnp]
    have hb1 : (1 : ℚ) ≤ cappedStake tc st strategy m d := not_lt.mp h4
    have harith := roundToCents_spend_le (cappedStake tc st strategy m d) n
      hn0 hn100 hb1
    by_cases hs' : s = strategy
    · subst hs'
      rw [strategyCapitalUsed_register_self, hall s]
      have hcap := cappedStake_le_remaining tc st s m d limit hlim
      have hmax : max 0 (limit - strategyCapitalUsed st s) =
          limit - strategyCapitalUsed st s := max_eq_right (by linarith)
      rw [hmax] at hcap
      split_ifs
      · exact hle
      · linarith [harith.2]
    · rw [strategyCapitalUsed_register_ne st' strategy s _ hs', hall s]
      exact hle
  simp only [placeTrade]
  by_cases hgb : (match getGameKeyFromTicker t with
      | some k => st.tradedGameKeys.contains k
      | none => false) = true
  · rw [if_pos hgb]
    exact hle
  · rw [if_neg hgb]
    rcases h2 : findExistingPositionForMarket t ps with _ | p
    swap
    · simp only [h2]
      exact hle
    simp only [h2]
    by_cases h3 : hasPendingOrder t (env.refreshedOrders.getD os) = true
    · rw [if_pos h3]
      exact hle
    rw [if_neg h3]
    by_cases h4 : cappedStake tc st strategy m d < 1
    · rw [if_pos h4]
      exact hle
    rw [if_neg h4]
    by_cases hlv : tc.liveTrades = true
    · simp only [hlv, Bool.not_true, Bool.false_eq_true, if_false]
      rcases h5 : env.submit with oid | _ | msg
      · simp only [h5]
        refine hspend _ ?_ h4
        intro s'
        rcases hk2 : getGameKeyFromTicker t with _ | k2
        · simp [hk2]
        · simp [hk2, strategyCapitalUsed_markKeys]
      · simp only [h5]
        exact hle
      · simp only [h5]
        exact hle
    · have hlv2 : tc.liveTrades = false := by
        cases h : tc.liveTrades
        · rfl
        · exact absurd h hlv
      simp only [hlv2, Bool.not_false, if_true]
      exact hspend st (fun _ => rfl) h4

/-- Over any sequence of `placeTrade` calls in one run with valid
integer-cent prices, a strategy's cumulative registered spend never exceeds
its configured (nonnegative) cap. -/
theorem runTrades_capital_le (tc : TradingConfig) (calls : List TradeCall)
    (hprices : ∀ c ∈ calls, priceIsValidCents c) (s : StrategyName)
    (limit : ℚ) (hlim : getStrategyLimit tc s = some limit)
    (hpos : 0 ≤ limit) :
    strategyCapitalUsed (runTrades tc calls) s ≤ limit := by
  have hstep : ∀ (cs : List TradeCall) (st : TradingState),
      (∀ c ∈ cs, priceIsValidCents c) →
      strategyCapitalUsed st s ≤ limit →
      strategyCapitalUsed (cs.foldl (stepTrade tc) st) s ≤ limit := by
    intro cs
    induction cs with
    | nil => intro st _ h; exact h
    | cons c rest ih =>
      intro st hall h
      rw [List.foldl_cons]
      refine ih (stepTrade tc st c) (fun x hx => hall x (List.mem_cons_of_mem c hx)) ?_
      exact placeTrade_capital_le tc c.env st c.strategy c.m c.marketTicker
        c.activePositions c.activeOrders c.desiredStakeDollars
        (hall c (List.mem_cons_self c rest)) s limit hlim h
  refine hstep calls initialTradingState hprices ?_
  cases s <;> simpa [initialTradingState, strategyCapitalUsed] using hpos

/-- Dry-run trading configuration of the C2 scenario: $100 cap on the
mispricing strategy, no max bet, no per-market cap. -/
def tcC2 : TradingConfig :=
  ⟨false, 10, none, none, none, none, some 100, none, none⟩

/-- Environment of the C2 scenario: no order refresh, no market data (the
cached mispricing price is used), dry run. -/
def envC2 : TradeEnv := ⟨none, none, .noOrder⟩

/-- Mispricing of the C2 scenario: Kalshi price 50 cents, undervalued. -/
def mC2 : Mispricing :=
  ⟨tk "KXNBAGAME-26JAN03MIALAL-LAL",
    ⟨"e4", "LAL", "MIA", "2026-01-03T00:00:00Z", none⟩, .home, 50, 0.5,
    100, 0.5, 0, 0, false⟩

/-- One $80-stake call of the C2 scenario on a given market ticker. -/
def callC2 (t : Ticker) : TradeCall := ⟨envC2, .mispricing, mC2, t, [], [], some 80⟩

/-- Game key of the first C2 market. -/
theorem gameKeyC2a : getGameKeyFromTicker (tk "KXNBAGAME-26JAN03MIALAL-LAL") =
    some (tk "26JAN03MIALAL") := by decide

/-- Game key of the second C2 market. -/
theorem gameKeyC2b : getGameKeyFromTicker (tk "KXNBAGAME-26JAN03DENPHX-PHX") =
    some (tk "26JAN03DENPHX") := by decide

/-- Game key of the third C2 market. -/
theorem gameKeyC2c : getGameKeyFromTicker (tk "KXNBAGAME-26JAN03GSWSAC-SAC") =
    some (tk "26JAN03GSWSAC") := by decide

/-- C2: within one process run, the stake of each trade is capped at the
strategy's remaining capital (cap minus ledger); a call whose capped stake
falls below $1 (all earlier guards passing) is rejected with the
capital-exhausted result; the cumulative registered spend never exceeds a
configured nonnegative cap for integer-cent prices; and with a $100 cap and
$80 requests at price 50¢: the first call registers $80, the second call's
capped stake is $20 and brings the ledger to $100, and a third call is
rejected as capital exhausted. -/
theorem C2_theorem :
    (∀ (tc : TradingConfig) (calls : List TradeCall),
      (∀ c ∈ calls, priceIsValidCents c) →
      ∀ (s : StrategyName) (limit : ℚ),
        getStrategyLimit tc s = some limit → 0 ≤ limit →
        strategyCapitalUsed (runTrades tc calls) s ≤ limit) ∧
    (∀ (tc : TradingConfig) (st : TradingState) (strategy : StrategyName)
      (m : Mispricing) (d : Option ℚ) (limit : ℚ),
      getStrategyLimit tc strategy = some limit →
      cappedStake tc st strategy m d ≤
        max 0 (limit - strategyCapitalUsed st strategy)) ∧
    (∀ (tc : TradingConfig) (env : TradeEnv) (st : TradingState)
      (strategy : StrategyName) (m : Mispricing) (t : Ticker)
      (ps : List PositionRec) (os : List OrderRec) (d : Option ℚ),
      (∀ k, getGameKeyFromTicker t = some k → k ∉ st.tradedGameKeys) →
      findExistingPositionForMarket t ps = none →
      hasPendingOrder t (env.refreshedOrders.getD os) = false →
      cappedStake tc st strategy m d < 1 →
      (placeTrade tc env st strategy m t ps os d).1 =
        ⟨false, none, some "Strategy capital exhausted"⟩) ∧
    (strategyCapitalUsed
        (runTrades tcC2 [callC2 (tk "KXNBAGAME-26JAN03MIALAL-LAL")])
        .mispricing = 80 ∧
      cappedStake tcC2
        (runTrades tcC2 [callC2 (tk "KXNBAGAME-26JAN03MIALAL-LAL")])
        .mispricing mC2 (some 80) = 20 ∧
      strategyCapitalUsed
        (runTrades tcC2 [callC2 (tk "KXNBAGAME-26JAN03MIALAL-LAL"),
          callC2 (tk "KXNBAGAME-26JAN03DENPHX-PHX")]) .mispricing = 100 ∧
      (placeTrade tcC2 envC2
        (runTrades tcC2 [callC2 (tk "KXNBAGAME-26JAN03MIALAL-LAL"),
          callC2 (tk "KXNBAGAME-26JAN03DENPHX-PHX")]) .mispricing mC2
        (tk "KXNBAGAME-26JAN03GSWSAC-SAC") [] [] (some 80)).1 =
        ⟨false, none, some "Strategy capital exhausted"⟩) := by
  have h1 : runTrades tcC2 [callC2 (tk "KXNBAGAME-26JAN03MIALAL-LAL")] =
      ⟨[], 0, 0, 80⟩ := by
    norm_num [runTrades, stepTrade, placeTrade, callC2, tcC2, envC2, mC2,
      gameKeyC2a, cappedStake, resolveBuyPrice, getRemainingStrategyCapital,
      getStrategyLimit, strategyCapitalUsed, registerStrategySpend,
      setStrategyCapitalUsed, roundToCents, findExistingPositionForMarket,
      hasPendingOrder, initialTradingState, round_eq, max_def, min_def]
  have h2 : runTrades tcC2 [callC2 (tk "KXNBAGAME-26JAN03MIALAL-LAL"),
      callC2 (tk "KXNBAGAME-26JAN03DENPHX-PHX")] = ⟨[], 0, 0, 100⟩ := by
    norm_num [runTrades, stepTrade, placeTrade, callC2, tcC2, envC2, mC2,
      gameKeyC2a, gameKeyC2b, cappedStake, resolveBuyPrice, getRemainingStrategyCapital,
      getStrategyLimit, strategyCapitalUsed, registerStrategySpend,
      setStrategyCapitalUsed, roundToCents, findExistingPositionForMarket,
      hasPendingOrder, initialTradingState, round_eq, max_def, min_def]
  refine ⟨?_, ?_, ?_, ?_, ?_, ?_, ?_⟩
  · intro tc calls h s limit hlim hpos
    exact runTrades_capital_le tc calls h s limit hlim hpos
  · intro tc st strategy m d limit h
    exact cappedStake_le_remaining tc st strategy m d limit h
  · intro tc env st strategy m t ps os d hkey hpos hpend hlow
    have halready : (match getGameKeyFromTicker t with
        | some k => decide (k ∈ st.tradedGameKeys)
        | none => false) = false := by
      rcases hk : getGameKeyFromTicker t with _ | k
      · simp [hk]
      · simp [hk, hkey k hk]
    simp [placeTrade, hpos, halready, hpend, hlow]
  · rw [h1]
    rfl
  · rw [h1]
    norm_num [cappedStake, tcC2, mC2, getRemainingStrategyCapital,
      getStrategyLimit, strategyCapitalUsed, max_def, min_def]
  · rw [h2]
    rfl
  · rw [h2]
    norm_num [placeTrade, tcC2, envC2, mC2, gameKeyC2c, cappedStake,
      resolveBuyPrice, getRemainingStrategyCapital, getStrategyLimit,
      strategyCapitalUsed, findExistingPositionForMarket, hasPendingOrder,
      max_def, min_def]

/-- C2 witness: the cap invariant applied to the concrete single-call run
(price 50¢, $100 cap). -/
theorem C2_witness :
    strategyCapitalUsed
      (runTrades tcC2 [callC2 (tk "KXNBAGAME-26JAN03MIALAL-LAL")])
      .mispricing ≤ 100 :=
  C2_theorem.1 tcC2 [callC2 (tk "KXNBAGAME-26JAN03MIALAL-LAL")]
    (by
      intro c hc
      simp only [List.mem_singleton] at hc
      subst hc
      exact ⟨50, by norm_num, by norm_num,
        by norm_num [callC2, envC2, mC2, resolveBuyPrice]⟩)
    .mispricing 100 rfl (by norm_num)
